import Mathlib

/-!
Verification development for the Blender "Space Switching" add-on
(single source file `__init__.py`).

The embedding models the add-on's core data and algorithms:
  * `custom_bake` — the channel baker (sampling sweep, per-channel keyframe
    insertion with rotation-continuity logic);
  * `space_switch` — temporary-hierarchy construction, capture-bake,
    and constraint rewiring (source `_space_switch`);
  * `remove_bones_common` — removal/apply of temporary bones
    (source `_remove_bones_common`).

Modelling conventions:
  * Bone and constraint identities are abstract `Nat` identifiers.  Blender
    guarantees bone-name uniqueness inside an armature; the templated display
    names produced by the add-on preferences are cosmetic and are not modelled.
  * Numeric channel values are rationals.  Euler angles are measured in
    turn units (1 turn = 2π radians), so "adding an integer multiple of 2π"
    becomes "adding an integer".
  * Host functionality (scene evaluation `convert_space`, keyframe insertion
    success) is an explicit environment parameter `BakeEnv`.
  * Python exceptions are modelled with `Except`; an error raised by
    `custom_bake` carries the scene state at the moment of the raise, since
    the Python exception leaves the mutated scene behind.
-/

/-- A 3-component rational vector (location, scale, or Euler triple). -/
structure Vec3 where
  x : ℚ
  y : ℚ
  z : ℚ
deriving DecidableEq

/-- A quaternion with rational components. -/
structure Quat where
  w : ℚ
  x : ℚ
  y : ℚ
  z : ℚ
deriving DecidableEq

/-- Axis-angle rotation value (`rotation_axis_angle`). -/
structure AxisAngle where
  angle : ℚ
  axis : Vec3
deriving DecidableEq

/-- The 4-D dot product of two quaternions. -/
def Quat.dot (a b : Quat) : ℚ :=
  a.w * b.w + a.x * b.x + a.y * b.y + a.z * b.z

/-- Component-wise negation of a quaternion (the same rotation, opposite sign). -/
def Quat.neg (q : Quat) : Quat :=
  ⟨-q.w, -q.x, -q.y, -q.z⟩

/-- Modelled from the spec: `mathutils.Quaternion.make_compatible` is host
library code not present in this repository.  Per the spec it flips the sign
of the current quaternion to minimize the 4-D distance to the previous one
(equivalently: so that the dot product with the previous one is nonnegative). -/
def Quat.make_compatible (q prev : Quat) : Quat :=
  if Quat.dot prev q < 0 then q.neg else q

/-- Modelled from the spec: per-component step of
`mathutils.Euler.make_compatible` (host library code not in this repository).
Per the spec, each component is shifted by an integer number of full turns to
minimize the absolute difference from the previous frame's component.
Angles are in turn units, so a full turn is `1`. -/
def eulerCompatibleAngle (a prev : ℚ) : ℚ :=
  a - round (a - prev)

/-- Modelled from the spec: `mathutils.Euler.make_compatible`, applied
componentwise. -/
def Vec3.make_compatible (e prev : Vec3) : Vec3 :=
  ⟨eulerCompatibleAngle e.x prev.x,
   eulerCompatibleAngle e.y prev.y,
   eulerCompatibleAngle e.z prev.z⟩

/-- The rotation representation mode of a pose bone (`PoseBone.rotation_mode`). -/
inductive RotationMode
  | QUATERNION
  | AXIS_ANGLE
  | XYZ
  | XZY
  | YXZ
  | YZX
  | ZXY
  | ZYX
deriving DecidableEq

/-- Whether a rotation mode is one of the Euler orders (the `else` branch of
the rotation-mode dispatch in `custom_bake`). -/
def RotationMode.isEuler : RotationMode → Bool
  | .QUATERNION => false
  | .AXIS_ANGLE => false
  | _ => true

/-- A reference to a bone: either a bone of a source armature or a bone of
the add-on's temporary armature.  This stands for Blender's
(target object, subtarget bone name) pair. -/
inductive BoneRef
  | src (id : Nat)
  | temp (id : Nat)
deriving DecidableEq

/-- The data of one inserted keyframe (`PoseBone.keyframe_insert` call). -/
inductive Key
  | location (bone : BoneRef) (frame : Int) (v : Vec3)
  | rotation_quaternion (bone : BoneRef) (frame : Int) (q : Quat)
  | rotation_axis_angle (bone : BoneRef) (frame : Int) (v : AxisAngle)
  | rotation_euler (bone : BoneRef) (frame : Int) (e : Vec3)
  | scale (bone : BoneRef) (frame : Int) (v : Vec3)
deriving DecidableEq

/-- Is this key a location keyframe? -/
def Key.isLocation : Key → Bool
  | .location _ _ _ => true
  | _ => false

/-- Scene state: the time cursor and the pool of inserted keyframes. -/
structure Scene where
  frame_current : Int
  keys : List Key
deriving DecidableEq

/-- The slice of a pose bone that `custom_bake` reads. -/
structure PoseBone where
  ref : BoneRef
  use_connect : Bool
  rotation_mode : RotationMode
deriving DecidableEq

/-- The channel values exposed by a pose bone once its `matrix_basis` has been
set to a sampled local matrix (host transform decomposition, abstracted). -/
structure LocalTransform where
  location : Vec3
  quat : Quat
  euler : Vec3
  axis_angle : AxisAngle
  scale : Vec3
deriving DecidableEq

/-- The per-bone rotation-continuity state threaded through the frame loop
(`euler_prev` / `quat_prev` locals of `custom_bake`). -/
structure RotState where
  euler_prev : Option Vec3
  quat_prev : Option Quat
deriving DecidableEq

/-- Errors raised by `custom_bake`: the explicit empty-channel check
(`ValueError`, the spec's `InvalidArgument`) or a failed keyframe insertion. -/
inductive BakeError
  | invalidArgument
  | insertFailed (k : Key)
deriving DecidableEq

/-- The host environment consumed by the baker: frame-wise evaluation of a
bone's local transform (`convert_space` after `frame_set`/update), and
whether a given keyframe insertion succeeds. -/
structure BakeEnv where
  sample : PoseBone → Int → LocalTransform
  insert_ok : Key → Bool

/-- The keys inserted for one bone at one frame, together with the updated
continuity state.  Mirrors the body of the inner frame loop of `custom_bake`
(location, then rotation with its three representation cases, then scale). -/
def frameKeys (pb : PoseBone) (frame : Int) (tf : LocalTransform) (st : RotState)
    (do_location do_rotation do_scale : Bool) : List Key × RotState :=
  let locKeys : List Key :=
    if do_location && !pb.use_connect then [.location pb.ref frame tf.location] else []
  let (rotKeys, st') :=
    if do_rotation then
      match pb.rotation_mode with
      | .QUATERNION =>
        match st.quat_prev with
        | some qp =>
          let quat := Quat.make_compatible tf.quat qp
          ([Key.rotation_quaternion pb.ref frame quat], { st with quat_prev := some quat })
        | none =>
          ([Key.rotation_quaternion pb.ref frame tf.quat], { st with quat_prev := some tf.quat })
      | .AXIS_ANGLE =>
        ([Key.rotation_axis_angle pb.ref frame tf.axis_angle], st)
      | _ =>
        match st.euler_prev with
        | some ep =>
          let euler := Vec3.make_compatible tf.euler ep
          ([Key.rotation_euler pb.ref frame euler], { st with euler_prev := some euler })
        | none =>
          ([Key.rotation_euler pb.ref frame tf.euler], { st with euler_prev := some tf.euler })
    else ([], st)
  let scaleKeys : List Key :=
    if do_scale then [.scale pb.ref frame tf.scale] else []
  (locKeys ++ rotKeys ++ scaleKeys, st')

/-- The frame loop for one bone, threading the rotation-continuity state. -/
def boneKeysAux (pb : PoseBone) (do_location do_rotation do_scale : Bool) :
    List (Int × LocalTransform) → RotState → List Key
  | [], _ => []
  | (f, tf) :: rest, st =>
    let p := frameKeys pb f tf st do_location do_rotation do_scale
    p.1 ++ boneKeysAux pb do_location do_rotation do_scale rest p.2

/-- All keys inserted for one bone over the frame list.  The continuity state
starts empty (`euler_prev = None`, `quat_prev = None`) for each bone. -/
def boneKeys (pb : PoseBone) (fts : List (Int × LocalTransform))
    (do_location do_rotation do_scale : Bool) : List Key :=
  boneKeysAux pb do_location do_rotation do_scale fts ⟨none, none⟩

/-- Insert a list of keys one by one; a key whose insertion the host refuses
raises, leaving the scene with the keys inserted so far. -/
def insertKeys (env : BakeEnv) : Scene → List Key → Except (BakeError × Scene) Scene
  | s, [] => .ok s
  | s, k :: rest =>
    if env.insert_ok k then
      insertKeys env { s with keys := s.keys ++ [k] } rest
    else
      .error (.insertFailed k, s)

/-- The channel baker (`custom_bake`).  Raises `invalidArgument` when all three
channel flags are off; otherwise runs the sampling sweep (moving the time
cursor through the frame list), inserts the per-bone keyframes, and finally
restores the time cursor — the restoration happens only when the writing
phase did not raise, exactly as in the source. -/
def custom_bake (env : BakeEnv) (scene : Scene) (frames : List Int)
    (pose_bones : List PoseBone) (do_location do_rotation do_scale : Bool) :
    Except (BakeError × Scene) Scene :=
  if !do_location && !do_rotation && !do_scale then
    .error (.invalidArgument, scene)
  else
    let original_frame := scene.frame_current
    let scene1 := frames.foldl (fun s f => { s with frame_current := f }) scene
    let all_keys := pose_bones.flatMap fun pb =>
      boneKeys pb (frames.map fun f => (f, env.sample pb f)) do_location do_rotation do_scale
    match insertKeys env scene1 all_keys with
    | .ok s2 => .ok { s2 with frame_current := original_frame }
    | .error e => .error e

/-- Constraint types used by the add-on. -/
inductive CType
  | COPY_TRANSFORMS
  | COPY_LOCATION
  | COPY_ROTATION
  | IK
deriving DecidableEq

/-- A bone constraint.  `cid` is the constraint's identity (Blender removes a
specific constraint object); `target`/`pole_target` stand for the
(target object, subtarget name) pairs. -/
structure Constraint where
  cid : Nat
  ctype : CType
  target : Option BoneRef
  pole_target : Option BoneRef
  head_tail : ℚ
deriving DecidableEq

/-- The observable content of a constraint, ignoring its identity. -/
structure CShape where
  ctype : CType
  target : Option BoneRef
  head_tail : ℚ
deriving DecidableEq

/-- Forget a constraint's identity. -/
def Constraint.shape (c : Constraint) : CShape :=
  ⟨c.ctype, c.target, c.head_tail⟩

/-- Source `is_constrained_to`: true when the constraint's target pair equals
the candidate bone, or — for IK — when its pole-target pair does. -/
def is_constrained_to (c : Constraint) (b : BoneRef) : Bool :=
  c.target == some b || (c.ctype == .IK && c.pole_target == some b)

/-- The provenance tag stamped on bones (`space_switching_tag`). -/
inductive Tag
  | NONE
  | EMPTY
  | SPACE
  | COPY
deriving DecidableEq

/-- A source-armature pose bone (the slice the add-on reads and writes). -/
structure SrcBone where
  id : Nat
  parent : Option Nat
  use_connect : Bool
  rotation_mode : RotationMode
  constraints : List Constraint
  hide : Bool
  select : Bool
deriving DecidableEq

/-- Projection of a source bone to the baker's view. -/
def SrcBone.toPoseBone (b : SrcBone) : PoseBone :=
  ⟨.src b.id, b.use_connect, b.rotation_mode⟩

/-- A bone of the add-on's temporary armature. -/
structure TempBone where
  id : Nat
  parent : Option Nat
  use_connect : Bool
  tag : Tag
  hide : Bool
  select : Bool
  rotation_mode : RotationMode
  constraints : List Constraint
deriving DecidableEq

/-- Projection of a temporary bone to the baker's view. -/
def TempBone.toPoseBone (b : TempBone) : PoseBone :=
  ⟨.temp b.id, b.use_connect, b.rotation_mode⟩

/-- The world state the add-on operates on: source armature bones, the
temporary armature's bones, a fresh-identifier counter, the scene, and the
active pose bone. -/
structure World where
  srcBones : List SrcBone
  tempBones : List TempBone
  nextId : Nat
  scene : Scene
  active : Option BoneRef
deriving DecidableEq

/-- Look up a source bone by identifier. -/
def findSrc (w : World) (i : Nat) : Option SrcBone :=
  w.srcBones.find? (fun b => b.id == i)

/-- Look up a temporary bone by identifier. -/
def findTemp (w : World) (i : Nat) : Option TempBone :=
  w.tempBones.find? (fun b => b.id == i)

/-- Update the source bone(s) with the given identifier. -/
def updateSrc (w : World) (i : Nat) (f : SrcBone → SrcBone) : World :=
  { w with srcBones := w.srcBones.map (fun b => if b.id == i then f b else b) }

/-- Update the temporary bone(s) with the given identifier. -/
def updateTemp (w : World) (i : Nat) (f : TempBone → TempBone) : World :=
  { w with tempBones := w.tempBones.map (fun b => if b.id == i then f b else b) }

/-- A freshly created temporary (edit) bone: unparented, unconnected,
untagged, visible, unselected, default rotation mode, no constraints. -/
def newTempBone (i : Nat) : TempBone :=
  { id := i, parent := none, use_connect := false, tag := .NONE, hide := false,
    select := false, rotation_mode := .QUATERNION, constraints := [] }

/-- Errors of the hierarchy operations: a failed name/bone lookup
(Python `KeyError`/`AttributeError`), a propagated bake failure, or the
explicit `RuntimeError` consistency checks of `_space_switch`. -/
inductive SwitchErr
  | keyError
  | bakeFail (e : BakeError)
  | inconsistency
deriving DecidableEq

/-- Clear the selection flag of every visible bone
(`for pose_bone in context.selected_pose_bones: ... select = False`). -/
def clearSelection (w : World) : World :=
  { w with
    srcBones := w.srcBones.map (fun b => if b.hide then b else { b with select := false }),
    tempBones := w.tempBones.map (fun b => if b.hide then b else { b with select := false }) }

/-- The edit-mode construction step of `_space_switch` for one source bone:
create the copy bone and — depending on connectivity and destination — the
anchor bones above it.  Returns the copy's identifier (the entry recorded in
`temp_bone_names`). -/
def buildOne (dest : Option Nat) (w : World) (i : Nat) : Except SwitchErr (World × Nat) :=
  match findSrc w i with
  | none => .error .keyError
  | some s =>
    let c := w.nextId
    if s.use_connect then
      let copy := { newTempBone c with parent := some (c+2), use_connect := true }
      let parentAnchor := newTempBone (c+1)
      let childAnchor := { newTempBone (c+2) with parent := some (c+1) }
      .ok ({ w with tempBones := w.tempBones ++ [copy, parentAnchor, childAnchor], nextId := c+3 }, c)
    else
      match dest with
      | some _ =>
        let copy := { newTempBone c with parent := some (c+1) }
        let destAnchor := newTempBone (c+1)
        .ok ({ w with tempBones := w.tempBones ++ [copy, destAnchor], nextId := c+2 }, c)
      | none =>
        .ok ({ w with tempBones := w.tempBones ++ [newTempBone c], nextId := c+1 }, c)

/-- The edit-mode construction loop of `_space_switch`, collecting the copy
identifiers in order (`temp_bone_names`). -/
def buildCopies (dest : Option Nat) : World → List Nat → Except SwitchErr (World × List Nat)
  | w, [] => .ok (w, [])
  | w, i :: rest =>
    match buildOne dest w i with
    | .error e => .error e
    | .ok (w1, c) =>
      match buildCopies dest w1 rest with
      | .error e => .error e
      | .ok (w2, cs) => .ok (w2, c :: cs)

/-- The rotation mode given to a copy: a connected Euler-mode source is forced
to quaternion, otherwise the source's mode is copied. -/
def wireMode (s : SrcBone) : RotationMode :=
  if s.use_connect && s.rotation_mode != .QUATERNION && s.rotation_mode != .AXIS_ANGLE then
    .QUATERNION
  else s.rotation_mode

/-- The anchor wiring for a connected source: hide and tag the space anchor,
climb to the outer parent anchor, hide and tag it, and give it the
`COPY_LOCATION` constraint targeting the source's parent tail
(`head_tail = 1.0`) and — when a destination is given — a `COPY_ROTATION`
constraint targeting the destination. -/
def wireAnchorConnected (dest : Option Nat) (s : SrcBone) (w : World) (p : Nat) :
    Except SwitchErr World :=
  match findTemp w p with
  | none => .error .keyError
  | some pBone =>
    let w := updateTemp w p (fun b => { b with hide := true, tag := .SPACE })
    match pBone.parent with
    | none => .error .keyError
    | some gp =>
      let w := updateTemp w gp (fun b => { b with hide := true, tag := .SPACE })
      match s.parent with
      | none => .error .keyError
      | some sp =>
        let clCid := w.nextId
        let cl : Constraint := ⟨clCid, .COPY_LOCATION, some (.src sp), none, 1⟩
        let w := updateTemp w gp (fun b => { b with constraints := b.constraints ++ [cl] })
        let w := { w with nextId := clCid + 1 }
        match dest with
        | some d =>
          let crCid := w.nextId
          let cr : Constraint := ⟨crCid, .COPY_ROTATION, some (.src d), none, 0⟩
          let w := updateTemp w gp (fun b => { b with constraints := b.constraints ++ [cr] })
          .ok { w with nextId := crCid + 1 }
        | none => .ok w

/-- The anchor wiring for an unconnected source with an anchor parent: hide
and tag the anchor and give it a `COPY_LOCATION` and — when a destination is
given — a `COPY_ROTATION`, both targeting the destination. -/
def wireAnchorUnconnected (dest : Option Nat) (w : World) (p : Nat) : World :=
  let w := updateTemp w p (fun b => { b with hide := true, tag := .SPACE })
  let clCid := w.nextId
  let cl : Constraint := ⟨clCid, .COPY_LOCATION, dest.map BoneRef.src, none, 0⟩
  let w := updateTemp w p (fun b => { b with constraints := b.constraints ++ [cl] })
  let w := { w with nextId := clCid + 1 }
  match dest with
  | some d =>
    let crCid := w.nextId
    let cr : Constraint := ⟨crCid, .COPY_ROTATION, some (.src d), none, 0⟩
    let w := updateTemp w p (fun b => { b with constraints := b.constraints ++ [cr] })
    { w with nextId := crCid + 1 }
  | none => w

/-- The copy-bone part of the wiring step of `_space_switch`: select and tag
the copy, set its rotation mode, add the `COPY_TRANSFORMS` capture constraint,
and update the active bone when the source was active. -/
def wireCopyStep (src_active : Option BoneRef) (w : World) (i c : Nat) (s : SrcBone) : World :=
  let ct : Constraint := ⟨w.nextId, .COPY_TRANSFORMS, some (.src i), none, 0⟩
  { updateTemp w c (fun b =>
      { b with select := true, tag := .COPY, rotation_mode := wireMode s,
               constraints := b.constraints ++ [ct] }) with
    nextId := w.nextId + 1
    active := if src_active == some (.src i) then some (.temp c) else w.active }

/-- The pose-mode wiring step of `_space_switch` for one (source, copy) pair:
the copy-bone step followed by the anchor chain wiring; the returned number is
the capture constraint's identity (the `constraints_to_remove` entry). -/
def wireOne (dest : Option Nat) (src_active : Option BoneRef) (w : World) (i c : Nat) :
    Except SwitchErr (World × Nat) :=
  match findSrc w i, findTemp w c with
  | some s, some copyBone =>
    let cid := w.nextId
    let w := wireCopyStep src_active w i c s
    match copyBone.parent with
    | none => .ok (w, cid)
    | some p =>
      if s.use_connect then
        match wireAnchorConnected dest s w p with
        | .error e => .error e
        | .ok w2 => .ok (w2, cid)
      else
        .ok (wireAnchorUnconnected dest w p, cid)
  | _, _ => .error .keyError

/-- The pose-mode wiring loop of `_space_switch`, collecting
(copy identifier, capture-constraint identifier) pairs — the model of the
parallel `temp_pose_bones` / `constraints_to_remove` lists. -/
def wireCopies (dest : Option Nat) (src_active : Option BoneRef) :
    World → List (Nat × Nat) → Except SwitchErr (World × List (Nat × Nat))
  | w, [] => .ok (w, [])
  | w, (i, c) :: rest =>
    match wireOne dest src_active w i c with
    | .error e => .error e
    | .ok (w1, cid) =>
      match wireCopies dest src_active w1 rest with
      | .error e => .error e
      | .ok (w2, ps) => .ok (w2, (c, cid) :: ps)

/-- Resolve the copy identifiers to the baker's bone views. -/
def tempPoseBones (w : World) : List Nat → Except SwitchErr (List PoseBone)
  | [] => .ok []
  | i :: rest =>
    match findTemp w i with
    | none => .error .keyError
    | some b =>
      match tempPoseBones w rest with
      | .error e => .error e
      | .ok pbs => .ok (b.toPoseBone :: pbs)

/-- The rewiring step of `_space_switch` for one (source, copy, capture
constraint) triple: remove the capture constraint from the copy; add a
`COPY_LOCATION` on the source targeting the copy unless the source is
connected; always add a `COPY_ROTATION` on the source targeting the copy. -/
def rewireOne (w : World) (i c cid : Nat) : Except SwitchErr World :=
  let w := updateTemp w c (fun b =>
    { b with constraints := b.constraints.eraseP (fun con => con.cid == cid) })
  match findSrc w i with
  | none => .error .keyError
  | some s =>
    let w :=
      if !s.use_connect then
        let clCid := w.nextId
        let w1 := updateSrc w i (fun b =>
          { b with constraints := b.constraints ++ [⟨clCid, .COPY_LOCATION, some (.temp c), none, 0⟩] })
        { w1 with nextId := clCid + 1 }
      else w
    let crCid := w.nextId
    let w2 := updateSrc w i (fun b =>
      { b with constraints := b.constraints ++ [⟨crCid, .COPY_ROTATION, some (.temp c), none, 0⟩] })
    .ok { w2 with nextId := crCid + 1 }

/-- The rewiring loop of `_space_switch`. -/
def rewireAll : World → List (Nat × (Nat × Nat)) → Except SwitchErr World
  | w, [] => .ok w
  | w, (i, (c, cid)) :: rest =>
    match rewireOne w i c cid with
    | .error e => .error e
    | .ok w1 => rewireAll w1 rest

/-- The working set of `_space_switch`: the requested sources with a
self-targeting destination removed. -/
def erasedSrcs (src_ids : List Nat) (dest : Option Nat) : List Nat :=
  match dest with
  | some d => src_ids.erase d
  | none => src_ids

/-- `_space_switch`, additionally returning the
(copy, capture-constraint) pairs for specification purposes.  Follows the
source: self-target removal, empty-set early return, selection clearing,
source hiding, edit-mode construction, the first `RuntimeError` length check,
pose-mode wiring, the capture bake with all three channels, the second
`RuntimeError` length check, and the final rewiring. -/
def space_switch_core (env : BakeEnv) (w : World) (src_ids : List Nat) (dest : Option Nat)
    (frames : List Int) : Except SwitchErr (World × List (Nat × Nat)) :=
  let src_active := w.active
  let srcs := erasedSrcs src_ids dest
  if srcs.length < 1 then .ok (w, [])
  else
    let w := clearSelection w
    let w := srcs.foldl (fun acc i => updateSrc acc i (fun b => { b with hide := true })) w
    match buildCopies dest w srcs with
    | .error e => .error e
    | .ok (w, names) =>
      if srcs.length != names.length then .error .inconsistency
      else
        match wireCopies dest src_active w (srcs.zip names) with
        | .error e => .error e
        | .ok (w, pairs) =>
          match tempPoseBones w (pairs.map (fun pr => pr.1)) with
          | .error e => .error e
          | .ok pbs =>
            match custom_bake env w.scene frames pbs true true true with
            | .error e => .error (.bakeFail e.1)
            | .ok sc =>
              let w := { w with scene := sc }
              if srcs.length != pairs.length then .error .inconsistency
              else rewireAll w (srcs.zip pairs) |>.map (fun w2 => (w2, pairs))

/-- `_space_switch` proper: the world after the operation. -/
def space_switch (env : BakeEnv) (w : World) (src_ids : List Nat) (dest : Option Nat)
    (frames : List Int) : Except SwitchErr World :=
  (space_switch_core env w src_ids dest frames).map (fun pr => pr.1)

/-- The bone a keyframe belongs to. -/
def Key.bone : Key → BoneRef
  | .location b _ _ => b
  | .rotation_quaternion b _ _ => b
  | .rotation_axis_angle b _ _ => b
  | .rotation_euler b _ _ => b
  | .scale b _ _ => b

/-- The currently selected pose bones of the temporary armature
(`context.selected_pose_bones` inside the removal operators, whose `poll`
restricts the selection to tagged temporary bones; hidden bones are not
selectable). -/
def selectedTemps (w : World) : List TempBone :=
  w.tempBones.filter (fun b => b.select && !b.hide)

/-- The apply-phase search of `_remove_bones_common`: for each selected
temporary bone, every pose bone of every armature object (source armatures
and the temporary armature alike) carrying a constraint targeting it. -/
def gatherBake (w : World) (sel : List TempBone) : List PoseBone :=
  sel.flatMap (fun t =>
    (w.srcBones.filter
      (fun sb => sb.constraints.any (fun con => is_constrained_to con (.temp t.id)))).map
      SrcBone.toPoseBone ++
    (w.tempBones.filter
      (fun tb => tb.constraints.any (fun con => is_constrained_to con (.temp t.id)))).map
      TempBone.toPoseBone)

/-- Python's `for x in xs: if p x: xs.remove(x)` idiom: removing the current
element advances the iteration index past the element that slid into its
place, so the element immediately after a removed one is never examined. -/
def pyFilterRemove (p : α → Bool) : List α → List α
  | [] => []
  | [a] => if p a then [] else [a]
  | a :: b :: rest =>
    if p a then b :: pyFilterRemove p rest
    else a :: pyFilterRemove p (b :: rest)

/-- Constraint-removal sweep over the source bones for one temporary bone
`tid`: drop the constraints targeting it (with the Python removal-iteration
semantics), un-hide each bone that had one, and record those bones. -/
def stripSrcFor (tid : Nat) : List SrcBone → List SrcBone × List BoneRef
  | [] => ([], [])
  | b :: rest =>
    let kept := pyFilterRemove (fun con => is_constrained_to con (.temp tid)) b.constraints
    let was := b.constraints.any (fun con => is_constrained_to con (.temp tid))
    let b1 := { b with constraints := kept, hide := if was then false else b.hide }
    let pr := stripSrcFor tid rest
    (b1 :: pr.1, (if was then [BoneRef.src b.id] else []) ++ pr.2)

/-- The same sweep over the temporary armature's own bones (it is itself one
of the armature objects enumerated by `get_armature_objects`). -/
def stripTempFor (tid : Nat) : List TempBone → List TempBone × List BoneRef
  | [] => ([], [])
  | b :: rest =>
    let kept := pyFilterRemove (fun con => is_constrained_to con (.temp tid)) b.constraints
    let was := b.constraints.any (fun con => is_constrained_to con (.temp tid))
    let b1 := { b with constraints := kept, hide := if was then false else b.hide }
    let pr := stripTempFor tid rest
    (b1 :: pr.1, (if was then [BoneRef.temp b.id] else []) ++ pr.2)

/-- One iteration of the collection loop of `_remove_bones_common` for a
selected temporary bone: record the bone and its anchor parent (and
grandparent) for removal, delete the bone's motion curves, strip the
constraints targeting it, and track the reselection/reactivation data. -/
def prepOne (origActive : Option BoneRef)
    (acc : World × List Nat × List BoneRef × Option BoneRef) (t : TempBone) :
    World × List Nat × List BoneRef × Option BoneRef :=
  let (w, ids, refs, act) := acc
  let ids1 := ids ++ [t.id] ++
    (match t.parent with
     | none => []
     | some p => [p] ++
       (match findTemp w p with
        | some pb => (match pb.parent with | some gp => [gp] | none => [])
        | none => []))
  let w1 := { w with scene :=
    { w.scene with keys := w.scene.keys.filter (fun k => !(k.bone == BoneRef.temp t.id)) } }
  let ps := stripSrcFor t.id w1.srcBones
  let pt := stripTempFor t.id w1.tempBones
  let w2 := { w1 with srcBones := ps.1, tempBones := pt.1 }
  let newRefs := ps.2 ++ pt.2
  let act1 :=
    if origActive == some (.temp t.id) then
      match newRefs.getLast? with
      | some r => some r
      | none => act
    else act
  (w2, ids1, refs ++ newRefs, act1)

/-- The edit-mode deletion loop: remove each recorded bone from the temporary
armature; a name that is no longer present raises (`KeyError`), exactly as
`edit_bones[name]` does. -/
def removeTempBones : World → List Nat → Except SwitchErr World
  | w, [] => .ok w
  | w, i :: rest =>
    if w.tempBones.any (fun b => b.id == i) then
      removeTempBones { w with tempBones := w.tempBones.eraseP (fun b => b.id == i) } rest
    else .error .keyError

/-- Re-select one recorded bone. -/
def selectRef (w : World) (r : BoneRef) : World :=
  match r with
  | .src i => updateSrc w i (fun b => { b with select := true })
  | .temp i => updateTemp w i (fun b => { b with select := true })

/-- `_remove_bones_common`: optionally bake the bones constrained to the
selected temporary bones (skipped when none are found), then unconditionally
run the deletion path — curve cleanup, constraint removal, bone deletion,
selection restoration, and reactivation. -/
def remove_bones_common (env : BakeEnv) (w : World) (do_apply : Bool) (frames : List Int) :
    Except SwitchErr World :=
  let original_active := w.active
  let sel := selectedTemps w
  let baked : Except SwitchErr World :=
    if do_apply then
      let pose_bones_to_bake := gatherBake w sel
      if pose_bones_to_bake.length > 0 then
        match custom_bake env w.scene frames pose_bones_to_bake true true true with
        | .error e => .error (.bakeFail e.1)
        | .ok sc => .ok { w with scene := sc }
      else .ok w
    else .ok w
  match baked with
  | .error e => .error e
  | .ok w1 =>
    let p := sel.foldl (prepOne original_active)
      ((w1, [], [], none) : World × List Nat × List BoneRef × Option BoneRef)
    match removeTempBones p.1 p.2.1 with
    | .error e => .error e
    | .ok w2 =>
      let w3 := { w2 with active := none }
      let w4 := p.2.2.1.foldl selectRef w3
      .ok (match p.2.2.2 with
           | some r => { w4 with active := some r }
           | none => w4)

/-! ### Specification lemmas for the baker -/

/-- The quaternion actually keyed: adjusted against the previous one when it
exists. -/
def quatStep (tf : LocalTransform) : Option Quat → Quat
  | some qp => Quat.make_compatible tf.quat qp
  | none => tf.quat

/-- The Euler triple actually keyed: adjusted against the previous one when it
exists. -/
def eulerStep (tf : LocalTransform) : Option Vec3 → Vec3
  | some ep => Vec3.make_compatible tf.euler ep
  | none => tf.euler

/-- The single rotation key inserted at a frame, by rotation mode. -/
def rotKey (pb : PoseBone) (f : Int) (tf : LocalTransform) (st : RotState) : Key :=
  match pb.rotation_mode with
  | .QUATERNION => .rotation_quaternion pb.ref f (quatStep tf st.quat_prev)
  | .AXIS_ANGLE => .rotation_axis_angle pb.ref f tf.axis_angle
  | _ => .rotation_euler pb.ref f (eulerStep tf st.euler_prev)

/-- The continuity state after keying one frame's rotation. -/
def nextRotState (pb : PoseBone) (tf : LocalTransform) (st : RotState) : RotState :=
  match pb.rotation_mode with
  | .QUATERNION => { st with quat_prev := some (quatStep tf st.quat_prev) }
  | .AXIS_ANGLE => st
  | _ => { st with euler_prev := some (eulerStep tf st.euler_prev) }

/-- Closed form of the per-frame step. -/
theorem frameKeys_eq (pb : PoseBone) (f : Int) (tf : LocalTransform) (st : RotState)
    (dl dr ds : Bool) :
    frameKeys pb f tf st dl dr ds =
      ((if dl && !pb.use_connect then [Key.location pb.ref f tf.location] else []) ++
       (if dr then [rotKey pb f tf st] else []) ++
       (if ds then [Key.scale pb.ref f tf.scale] else []),
       if dr then nextRotState pb tf st else st) := by
  unfold frameKeys rotKey nextRotState quatStep eulerStep
  cases dr
  · simp
  · cases hm : pb.rotation_mode <;> cases hq : st.quat_prev <;> cases he : st.euler_prev <;>
      simp [hm, hq, he]

/-- A rotation key is never a location key. -/
theorem rotKey_not_location (pb : PoseBone) (f : Int) (tf : LocalTransform) (st : RotState) :
    (rotKey pb f tf st).isLocation = false := by
  unfold rotKey
  cases pb.rotation_mode <;> simp [Key.isLocation]

/-! ### Claim C1 -/

/-- Claim C1: with all three channel flags disabled `custom_bake` fails with
the `InvalidArgument` error (`ValueError` in the source), before any sampling,
keyframe insertion or time-cursor change — the scene carried out of the raise
is exactly the entry scene, for every frame sequence and entity list. -/
theorem custom_bake_no_channels_invalid (env : BakeEnv) (scene : Scene) (frames : List Int)
    (pose_bones : List PoseBone) :
    custom_bake env scene frames pose_bones false false false =
      .error (.invalidArgument, scene) := rfl

/-! ### Claim C2 (corrected) -/

/-- A constant local transform used for concrete runs. -/
def sampleTransform : LocalTransform :=
  { location := ⟨1, 2, 3⟩, quat := ⟨1, 0, 0, 0⟩, euler := ⟨0, 0, 0⟩,
    axis_angle := ⟨0, ⟨0, 1, 0⟩⟩, scale := ⟨1, 1, 1⟩ }

/-- An environment whose keyframe insertions always succeed. -/
def okEnv : BakeEnv := { sample := fun _ _ => sampleTransform, insert_ok := fun _ => true }

/-- An environment whose keyframe insertions always fail. -/
def failEnv : BakeEnv := { sample := fun _ _ => sampleTransform, insert_ok := fun _ => false }

/-- A plain unconnected Euler-XYZ bone. -/
def plainBone : PoseBone := { ref := .src 0, use_connect := false, rotation_mode := .XYZ }

/-- Claim C2, counterexample: the claim says the time cursor is restored even
when the keyframe-writing phase fails.  It is not: on a bake over frame 5
starting with the cursor at 1, a failing keyframe insertion raises with the
cursor still at the last sampled frame 5. -/
theorem custom_bake_failed_write_cursor_cex :
    custom_bake failEnv ⟨1, []⟩ [5] [plainBone] true false false =
      .error (.insertFailed (.location (.src 0) 5 ⟨1, 2, 3⟩), ⟨5, []⟩) ∧
    ((5 : Int) ≠ 1) :=
  ⟨rfl, by decide⟩

/-- Claim C2 (amended): after the sampling sweep the time cursor is restored
to its entry value whenever `custom_bake` completes without raising; when the
keyframe-writing phase raises, the cursor is left where the sweep put it (no
restoration is attempted). -/
theorem custom_bake_ok_restores_cursor (env : BakeEnv) (scene : Scene) (frames : List Int)
    (pose_bones : List PoseBone) (dl dr ds : Bool) (s' : Scene)
    (h : custom_bake env scene frames pose_bones dl dr ds = .ok s') :
    s'.frame_current = scene.frame_current := by
  unfold custom_bake at h
  split at h
  · exact absurd h (by simp)
  · dsimp only at h
    split at h
    · cases h
      rfl
    · exact absurd h (by simp)

/-- Witness for the amended C2 on a concrete successful run. -/
theorem custom_bake_ok_restores_cursor_witness :
    (Scene.mk 1 [Key.location (.src 0) 5 ⟨1, 2, 3⟩]).frame_current =
      (Scene.mk 1 []).frame_current :=
  custom_bake_ok_restores_cursor okEnv ⟨1, []⟩ [5] [plainBone] true false false _ rfl

/-! ### Claim C3 -/

/-- Inversion for location keys produced at a single frame. -/
theorem location_mem_frameKeys (pb : PoseBone) (f0 : Int) (tf0 : LocalTransform) (st : RotState)
    (dl dr ds : Bool) (r : BoneRef) (f : Int) (v : Vec3)
    (h : Key.location r f v ∈ (frameKeys pb f0 tf0 st dl dr ds).1) :
    r = pb.ref ∧ pb.use_connect = false ∧ dl = true ∧ f = f0 ∧ v = tf0.location := by
  rw [frameKeys_eq] at h
  simp only [List.mem_append] at h
  rcases h with (h | h) | h
  · split at h
    · rename_i hc
      simp only [List.mem_singleton, Key.location.injEq] at h
      simp only [Bool.and_eq_true, Bool.not_eq_true'] at hc
      exact ⟨h.1, hc.2, hc.1, h.2.1, h.2.2⟩
    · simp at h
  · split at h
    · simp only [List.mem_singleton] at h
      have hr := rotKey_not_location pb f0 tf0 st
      rw [← h] at hr
      simp [Key.isLocation] at hr
    · simp at h
  · split at h
    · simp at h
    · simp at h

/-- Inversion for location keys over a bone's whole frame loop. -/
theorem location_mem_boneKeysAux (pb : PoseBone) (dl dr ds : Bool) (r : BoneRef)
    (f : Int) (v : Vec3) :
    ∀ (fts : List (Int × LocalTransform)) (st : RotState),
      Key.location r f v ∈ boneKeysAux pb dl dr ds fts st →
      r = pb.ref ∧ pb.use_connect = false ∧ dl = true
  | [], st, h => by simp [boneKeysAux] at h
  | (f0, tf0) :: rest, st, h => by
    simp only [boneKeysAux] at h
    rcases List.mem_append.mp h with h | h
    · have hh := location_mem_frameKeys pb f0 tf0 st dl dr ds r f v h
      exact ⟨hh.1, hh.2.1, hh.2.2.1⟩
    · exact location_mem_boneKeysAux pb dl dr ds r f v rest _ h

/-- For an unconnected bone with `Location` enabled, the location key of every
frame is inserted. -/
theorem location_self_mem_boneKeysAux (pb : PoseBone) (h2 : pb.use_connect = false)
    (dr ds : Bool) :
    ∀ (fts : List (Int × LocalTransform)) (st : RotState) (ft : Int × LocalTransform),
      ft ∈ fts →
      Key.location pb.ref ft.1 ft.2.location ∈ boneKeysAux pb true dr ds fts st
  | [], _, _, hmem => by simp at hmem
  | (f0, tf0) :: rest, st, ft, hmem => by
    simp only [boneKeysAux]
    rcases List.mem_cons.mp hmem with h | h
    · subst h
      apply List.mem_append_left
      rw [frameKeys_eq]
      simp [h2]
    · exact List.mem_append_right _
        (location_self_mem_boneKeysAux pb h2 dr ds rest _ ft h)

/-- Successful key insertion appends exactly the given keys and keeps the
cursor. -/
theorem insertKeys_ok_spec (env : BakeEnv) :
    ∀ (ks : List Key) (s s2 : Scene), insertKeys env s ks = .ok s2 →
      s2.frame_current = s.frame_current ∧ s2.keys = s.keys ++ ks
  | [], s, s2, h => by
    cases h
    simp
  | k :: ks, s, s2, h => by
    rw [insertKeys] at h
    split at h
    · have hh := insertKeys_ok_spec env ks _ _ h
      simpa using hh
    · exact absurd h (by simp)

/-- When every insertion succeeds, `insertKeys` cannot fail. -/
theorem insertKeys_all_ok (env : BakeEnv) (hok : ∀ k, env.insert_ok k = true) :
    ∀ (ks : List Key) (s : Scene), ∃ s2, insertKeys env s ks = .ok s2
  | [], s => ⟨s, rfl⟩
  | k :: ks, s => by
    obtain ⟨s2, h⟩ := insertKeys_all_ok env hok ks { s with keys := s.keys ++ [k] }
    exact ⟨s2, by rw [insertKeys, if_pos (hok k)]; exact h⟩

/-- The sampling sweep only moves the time cursor. -/
theorem foldl_frame_keys : ∀ (frames : List Int) (s : Scene),
    (frames.foldl (fun s f => { s with frame_current := f }) s).keys = s.keys
  | [], _ => rfl
  | _ :: fs, _ => foldl_frame_keys fs _

/-- The key pool after a successful bake: the old pool plus the per-bone key
lists, in order. -/
theorem custom_bake_ok_keys (env : BakeEnv) (scene : Scene) (frames : List Int)
    (bones : List PoseBone) (dl dr ds : Bool) (s' : Scene)
    (h : custom_bake env scene frames bones dl dr ds = .ok s') :
    s'.keys = scene.keys ++ bones.flatMap
      (fun pb => boneKeys pb (frames.map fun f => (f, env.sample pb f)) dl dr ds) := by
  unfold custom_bake at h
  split at h
  · exact absurd h (by simp)
  · dsimp only at h
    split at h
    · rename_i s2 hs2
      cases h
      have hh := insertKeys_ok_spec env _ _ _ hs2
      simpa [foldl_frame_keys] using hh.2
    · exact absurd h (by simp)

/-- Claim C3: a connected entity never receives a location keyframe — over any
frame list, under any flags, in any (repeated) invocation — and this is not an
error; an unconnected entity with `Location` enabled receives a location
keyframe at every frame.  Stated as: (1) a connected bone's key list contains
no location key; (2) an unconnected bone's key list contains the location key
of every frame; (3) a successful bake adds no location key for a reference
all of whose bones are connected (so iterating bakes never adds one); (4) a
bake whose insertions succeed and with some channel enabled returns without
error. -/
theorem connected_location_never_keyed
    (pb : PoseBone) (fts : List (Int × LocalTransform)) (dl dr ds : Bool)
    (env : BakeEnv) (scene s' : Scene) (frames : List Int) (bones : List PoseBone)
    (r : BoneRef) :
    (pb.use_connect = true → ∀ k ∈ boneKeys pb fts dl dr ds, k.isLocation = false) ∧
    (pb.use_connect = false → ∀ ft ∈ fts,
      Key.location pb.ref ft.1 ft.2.location ∈ boneKeys pb fts true dr ds) ∧
    (custom_bake env scene frames bones dl dr ds = .ok s' →
      (∀ pb' ∈ bones, pb'.ref = r → pb'.use_connect = true) →
      (∀ f v, Key.location r f v ∉ scene.keys) →
      (∀ f v, Key.location r f v ∉ s'.keys)) ∧
    ((∀ k, env.insert_ok k = true) → (dl || dr || ds) = true →
      ∃ s2, custom_bake env scene frames bones dl dr ds = .ok s2) := by
  refine ⟨?_, ?_, ?_, ?_⟩
  · intro hc k hk
    cases k with
    | location b f v =>
      have := (location_mem_boneKeysAux pb dl dr ds b f v fts _ hk).2.1
      rw [hc] at this
      cases this
    | rotation_quaternion b f q => rfl
    | rotation_axis_angle b f v => rfl
    | rotation_euler b f e => rfl
    | scale b f v => rfl
  · intro hc ft hft
    exact location_self_mem_boneKeysAux pb hc dr ds fts _ ft hft
  · intro hok hcon hold f v hmem
    rw [custom_bake_ok_keys env scene frames bones dl dr ds s' hok] at hmem
    rcases List.mem_append.mp hmem with h | h
    · exact hold f v h
    · obtain ⟨pb', hpb', hk⟩ := List.mem_flatMap.mp h
      have hh := location_mem_boneKeysAux pb' dl dr ds r f v _ _ hk
      have := hcon pb' hpb' hh.1.symm
      rw [this] at hh
      exact absurd hh.2.1 (by simp)
  · intro hok hch
    have hc : (!dl && !dr && !ds) = false := by
      revert hch; cases dl <;> cases dr <;> cases ds <;> decide
    obtain ⟨s2, hs2⟩ := insertKeys_all_ok env hok
      (bones.flatMap fun pb =>
        boneKeys pb (frames.map fun f => (f, env.sample pb f)) dl dr ds)
      (frames.foldl (fun s f => { s with frame_current := f }) scene)
    refine ⟨{ s2 with frame_current := scene.frame_current }, ?_⟩
    unfold custom_bake
    rw [hc]
    dsimp only
    rw [hs2]
    rfl

/-- Witness for C3 on a concrete unconnected bone and frame list. -/
theorem connected_location_never_keyed_witness :
    Key.location plainBone.ref (5 : Int) sampleTransform.location ∈
      boneKeys plainBone [((5 : Int), sampleTransform)] true false false :=
  ((connected_location_never_keyed plainBone [((5 : Int), sampleTransform)] true false false
      okEnv ⟨1, []⟩ ⟨1, []⟩ [] [] (.src 0)).2.1) rfl ((5 : Int), sampleTransform) (by decide)

/-! ### Claim C4 -/

/-- Dot product with a negated quaternion. -/
theorem Quat.dot_neg (a b : Quat) : Quat.dot a b.neg = -(Quat.dot a b) := by
  unfold Quat.dot Quat.neg
  ring

/-- The compatibility flip makes the dot product with the previous quaternion
nonnegative. -/
theorem Quat.dot_make_compatible_nonneg (q prev : Quat) :
    0 ≤ Quat.dot prev (Quat.make_compatible q prev) := by
  unfold Quat.make_compatible
  split
  · rename_i h
    rw [Quat.dot_neg]
    linarith
  · rename_i h
    exact le_of_not_lt h

/-- Claim C4: with `Rotation` enabled and a quaternion-mode bone whose stored
previous quaternion is `q1`, the keyed quaternion `q2'` is the sampled `q2`
with its sign possibly flipped, satisfies `dot q1 q2' ≥ 0`, and becomes the
new stored previous quaternion. -/
theorem quaternion_continuity (pb : PoseBone) (f : Int) (tf : LocalTransform) (st : RotState)
    (q1 : Quat) (dl ds : Bool) (hm : pb.rotation_mode = .QUATERNION)
    (hp : st.quat_prev = some q1) :
    ∃ q2', (q2' = tf.quat ∨ q2' = tf.quat.neg) ∧ 0 ≤ Quat.dot q1 q2' ∧
      Key.rotation_quaternion pb.ref f q2' ∈ (frameKeys pb f tf st dl true ds).1 ∧
      (frameKeys pb f tf st dl true ds).2.quat_prev = some q2' := by
  refine ⟨Quat.make_compatible tf.quat q1, ?_, ?_, ?_, ?_⟩
  · unfold Quat.make_compatible
    split
    · exact Or.inr rfl
    · exact Or.inl rfl
  · exact Quat.dot_make_compatible_nonneg tf.quat q1
  · rw [frameKeys_eq]
    simp [rotKey, quatStep, hm, hp]
  · rw [frameKeys_eq]
    simp [nextRotState, quatStep, hm, hp]

/-- A quaternion-mode Euler-XYZ-free bone used for concrete runs. -/
def quatBone : PoseBone := { ref := .src 1, use_connect := false, rotation_mode := .QUATERNION }

/-- A transform whose quaternion is the sign-opposite of (1,0,0,0). -/
def quatFlipTransform : LocalTransform := { sampleTransform with quat := ⟨-1, 0, 0, 0⟩ }

/-- Witness for C4 on a concrete flipped quaternion. -/
theorem quaternion_continuity_witness :
    ∃ q2', (q2' = quatFlipTransform.quat ∨ q2' = quatFlipTransform.quat.neg) ∧
      0 ≤ Quat.dot ⟨1, 0, 0, 0⟩ q2' ∧
      Key.rotation_quaternion quatBone.ref 5 q2' ∈
        (frameKeys quatBone 5 quatFlipTransform ⟨none, some ⟨1, 0, 0, 0⟩⟩ true true true).1 ∧
      (frameKeys quatBone 5 quatFlipTransform
        ⟨none, some ⟨1, 0, 0, 0⟩⟩ true true true).2.quat_prev = some q2' :=
  quaternion_continuity quatBone 5 quatFlipTransform ⟨none, some ⟨1, 0, 0, 0⟩⟩
    ⟨1, 0, 0, 0⟩ true true rfl rfl

/-! ### Claim C5 -/

/-- The nearest-integer residual is not larger than any integer translate. -/
theorem abs_sub_round_le_abs_add_int (x : ℚ) (m : ℤ) : |x - round x| ≤ |x + m| := by
  have hdecomp : x + m = (x - round x) + ((m + round x : ℤ) : ℚ) := by
    push_cast
    ring
  rcases eq_or_ne (m + round x) 0 with h | h
  · rw [hdecomp, h]
    simp
  · have h1 : |x - round x| ≤ 1 / 2 := abs_sub_round x
    have h2 : (1 : ℚ) ≤ |((m + round x : ℤ) : ℚ)| := by
      rw [← Int.cast_abs]
      exact_mod_cast Int.one_le_abs h
    have h3 : |((m + round x : ℤ) : ℚ)| ≤
        |(x - round x) + ((m + round x : ℤ) : ℚ)| + |x - round x| := by
      have h4 := abs_add ((x - round x) + ((m + round x : ℤ) : ℚ)) (-(x - round x))
      have h5 : (x - round x) + ((m + round x : ℤ) : ℚ) + (-(x - round x)) =
          ((m + round x : ℤ) : ℚ) := by ring
      rw [h5, abs_neg] at h4
      exact h4
    rw [hdecomp]
    linarith

/-- Per-component minimality of the Euler compatibility adjustment. -/
theorem eulerCompatibleAngle_min (a p : ℚ) (g : ℤ) :
    |eulerCompatibleAngle a p - p| ≤ |a + g - p| := by
  have h := abs_sub_round_le_abs_add_int (a - p) g
  have e1 : eulerCompatibleAngle a p - p = (a - p) - round (a - p) := by
    unfold eulerCompatibleAngle
    ring
  have e2 : a + g - p = (a - p) + g := by ring
  rw [e1, e2]
  exact h

/-- The rotation key of a bone in any Euler mode. -/
theorem rotKey_euler (pb : PoseBone) (f : Int) (tf : LocalTransform) (st : RotState)
    (hm : pb.rotation_mode.isEuler = true) :
    rotKey pb f tf st = .rotation_euler pb.ref f (eulerStep tf st.euler_prev) := by
  unfold rotKey
  cases h : pb.rotation_mode <;> rw [h] at hm <;> simp_all [RotationMode.isEuler]

/-- The continuity-state update of a bone in any Euler mode. -/
theorem nextRotState_euler (pb : PoseBone) (tf : LocalTransform) (st : RotState)
    (hm : pb.rotation_mode.isEuler = true) :
    nextRotState pb tf st = { st with euler_prev := some (eulerStep tf st.euler_prev) } := by
  unfold nextRotState
  cases h : pb.rotation_mode <;> rw [h] at hm <;> simp_all [RotationMode.isEuler]

/-- Claim C5: with `Rotation` enabled and an Euler-mode bone, (1) each keyed
Euler triple after the first is a per-component integer-turn translate of the
sampled triple minimizing the summed per-axis absolute difference from the
previous keyed triple among all such translates, and it becomes the stored
previous value; (2) the continuity state is re-initialized to empty at the
start of each bone's frame loop, so the first frame of every bone is keyed
unadjusted and continuity never crosses entities. -/
theorem euler_continuity_and_reinit
    (pb : PoseBone) (f : Int) (tf : LocalTransform) (st : RotState) (e1 : Vec3)
    (dl ds : Bool) (fts : List (Int × LocalTransform)) :
    (pb.rotation_mode.isEuler = true → st.euler_prev = some e1 →
      ∃ e2', (∃ k1 k2 k3 : ℤ,
          e2' = ⟨tf.euler.x + k1, tf.euler.y + k2, tf.euler.z + k3⟩) ∧
        (∀ g1 g2 g3 : ℤ,
          |e2'.x - e1.x| + |e2'.y - e1.y| + |e2'.z - e1.z| ≤
            |tf.euler.x + g1 - e1.x| + |tf.euler.y + g2 - e1.y| + |tf.euler.z + g3 - e1.z|) ∧
        Key.rotation_euler pb.ref f e2' ∈ (frameKeys pb f tf st dl true ds).1 ∧
        (frameKeys pb f tf st dl true ds).2.euler_prev = some e2') ∧
    (pb.rotation_mode.isEuler = true →
      boneKeys pb ((f, tf) :: fts) dl true ds =
        (if dl && !pb.use_connect then [Key.location pb.ref f tf.location] else []) ++
        Key.rotation_euler pb.ref f tf.euler ::
        ((if ds then [Key.scale pb.ref f tf.scale] else []) ++
         boneKeysAux pb dl true ds fts ⟨some tf.euler, none⟩)) := by
  constructor
  · intro hm hp
    refine ⟨Vec3.make_compatible tf.euler e1, ⟨-(round (tf.euler.x - e1.x)),
      -(round (tf.euler.y - e1.y)), -(round (tf.euler.z - e1.z)), ?_⟩, ?_, ?_, ?_⟩
    · unfold Vec3.make_compatible eulerCompatibleAngle
      simp only [Vec3.mk.injEq]
      refine ⟨?_, ?_, ?_⟩ <;> push_cast <;> ring
    · intro g1 g2 g3
      have hx := eulerCompatibleAngle_min tf.euler.x e1.x g1
      have hy := eulerCompatibleAngle_min tf.euler.y e1.y g2
      have hz := eulerCompatibleAngle_min tf.euler.z e1.z g3
      unfold Vec3.make_compatible
      dsimp only
      linarith
    · rw [frameKeys_eq]
      rw [rotKey_euler pb f tf st hm, hp]
      simp [eulerStep]
    · rw [frameKeys_eq]
      simp only [if_pos]
      rw [nextRotState_euler pb tf st hm, hp]
      simp [eulerStep]
  · intro hm
    rw [boneKeys]
    simp only [boneKeysAux]
    rw [frameKeys_eq]
    rw [rotKey_euler pb f tf ⟨none, none⟩ hm, nextRotState_euler pb tf ⟨none, none⟩ hm]
    simp [eulerStep]

/-- Witness for C5 on a concrete Euler bone and one-frame list. -/
theorem euler_continuity_and_reinit_witness :
    boneKeys plainBone (((5 : Int), sampleTransform) :: []) true true false =
      (if true && !plainBone.use_connect then
        [Key.location plainBone.ref 5 sampleTransform.location] else []) ++
      Key.rotation_euler plainBone.ref 5 sampleTransform.euler ::
      ((if false then [Key.scale plainBone.ref 5 sampleTransform.scale] else []) ++
       boneKeysAux plainBone true true false [] ⟨some sampleTransform.euler, none⟩) :=
  (euler_continuity_and_reinit plainBone 5 sampleTransform ⟨none, none⟩ ⟨0, 0, 0⟩
    true false []).2 rfl

/-! ### Claim C6 -/

/-- Claim C6: a destination bone present among the source bones is removed
from the working set before any construction (for a duplicate-free source
list the run equals the run on the erased list), and when the removal empties
the set the operation is a silent no-op: no error, and the world — bones,
hide/select flags, constraints, scene, active bone — is returned unchanged. -/
theorem space_switch_self_target (env : BakeEnv) (w : World) (src_ids : List Nat) (d : Nat)
    (frames : List Int) (hnd : src_ids.Nodup) :
    (space_switch_core env w src_ids (some d) frames =
      space_switch_core env w (src_ids.erase d) (some d) frames) ∧
    (src_ids.erase d = [] → space_switch env w src_ids (some d) frames = .ok w) := by
  have hne : d ∉ src_ids.erase d := fun hmem =>
    ((List.Nodup.mem_erase_iff hnd).mp hmem).1 rfl
  have he : (src_ids.erase d).erase d = src_ids.erase d := List.erase_of_not_mem hne
  constructor
  · simp only [space_switch_core, erasedSrcs]
    rw [he]
  · intro h
    simp only [space_switch, space_switch_core, erasedSrcs, h]
    rfl

/-- Witness for C6: a singleton selection whose only member is the
destination. -/
theorem space_switch_self_target_witness :
    (space_switch_core okEnv ⟨[], [], 0, ⟨1, []⟩, none⟩ [3] (some 3) [1] =
      space_switch_core okEnv ⟨[], [], 0, ⟨1, []⟩, none⟩ ([3].erase 3) (some 3) [1]) ∧
    space_switch okEnv ⟨[], [], 0, ⟨1, []⟩, none⟩ [3] (some 3) [1] =
      .ok ⟨[], [], 0, ⟨1, []⟩, none⟩ :=
  ⟨(space_switch_self_target okEnv ⟨[], [], 0, ⟨1, []⟩, none⟩ [3] 3 [1] (by decide)).1,
   (space_switch_self_target okEnv ⟨[], [], 0, ⟨1, []⟩, none⟩ [3] 3 [1] (by decide)).2 rfl⟩

/-! ### Claim C10 -/

/-- Mapping a fallible result preserves the error. -/
theorem except_map_error_inv {α β γ : Type} (f : α → β) (x : Except γ α) (e : γ)
    (h : x.map f = .error e) : x = .error e := by
  cases x with
  | error e2 =>
    simp only [Except.map] at h
    injection h with h2
    rw [h2]
  | ok a => simp [Except.map] at h

/-- `buildOne` raises only `keyError`, never the consistency `RuntimeError`. -/
theorem buildOne_not_inconsistency (dest : Option Nat) (w : World) (i : Nat) :
    buildOne dest w i ≠ .error .inconsistency := by
  unfold buildOne
  repeat' split
  all_goals simp

/-- `buildCopies` never raises the consistency `RuntimeError`. -/
theorem buildCopies_not_inconsistency (dest : Option Nat) :
    ∀ (srcs : List Nat) (w : World), buildCopies dest w srcs ≠ .error .inconsistency
  | [], w => by simp [buildCopies]
  | i :: rest, w => by
    simp only [buildCopies]
    cases hb : buildOne dest w i with
    | error e =>
      have he : e ≠ SwitchErr.inconsistency := by
        intro hcontra
        exact buildOne_not_inconsistency dest w i (hcontra ▸ hb)
      simpa using he
    | ok pr =>
      obtain ⟨w1, c⟩ := pr
      dsimp only
      cases hr : buildCopies dest w1 rest with
      | error e =>
        have he : e ≠ SwitchErr.inconsistency := by
          intro hcontra
          exact buildCopies_not_inconsistency dest rest w1 (hcontra ▸ hr)
        simpa using he
      | ok pr2 =>
        obtain ⟨w2, cs⟩ := pr2
        simp

/-- `wireAnchorConnected` raises only `keyError`. -/
theorem wireAnchorConnected_not_inconsistency (dest : Option Nat) (s : SrcBone) (w : World)
    (p : Nat) : wireAnchorConnected dest s w p ≠ .error .inconsistency := by
  intro h
  unfold wireAnchorConnected at h
  repeat' split at h
  all_goals simp_all

/-- `wireOne` raises only `keyError`, never the consistency `RuntimeError`. -/
theorem wireOne_not_inconsistency (dest : Option Nat) (act : Option BoneRef) (w : World)
    (i c : Nat) : wireOne dest act w i c ≠ .error .inconsistency := by
  intro h
  unfold wireOne at h
  repeat' split at h
  all_goals (try simp_all)
  all_goals
    (split at h
     · rename_i e heq2
       have he : e = SwitchErr.inconsistency := by injection h
       exact wireAnchorConnected_not_inconsistency _ _ _ _ (he ▸ heq2)
     · exact absurd h (by simp))

/-- `wireCopies` never raises the consistency `RuntimeError`. -/
theorem wireCopies_not_inconsistency (dest : Option Nat) (act : Option BoneRef) :
    ∀ (ps : List (Nat × Nat)) (w : World), wireCopies dest act w ps ≠ .error .inconsistency
  | [], w => by simp [wireCopies]
  | (i, c) :: rest, w => by
    simp only [wireCopies]
    cases hb : wireOne dest act w i c with
    | error e =>
      have he : e ≠ SwitchErr.inconsistency := by
        intro hcontra
        exact wireOne_not_inconsistency dest act w i c (hcontra ▸ hb)
      simpa using he
    | ok pr =>
      obtain ⟨w1, cid⟩ := pr
      dsimp only
      cases hr : wireCopies dest act w1 rest with
      | error e =>
        have he : e ≠ SwitchErr.inconsistency := by
          intro hcontra
          exact wireCopies_not_inconsistency dest act rest w1 (hcontra ▸ hr)
        simpa using he
      | ok pr2 =>
        obtain ⟨w2, ps2⟩ := pr2
        simp

/-- `tempPoseBones` raises only `keyError`. -/
theorem tempPoseBones_not_inconsistency (w : World) :
    ∀ (l : List Nat), tempPoseBones w l ≠ .error .inconsistency
  | [] => by simp [tempPoseBones]
  | i :: rest => by
    simp only [tempPoseBones]
    cases hb : findTemp w i with
    | none => simp
    | some b =>
      dsimp only
      cases hr : tempPoseBones w rest with
      | error e =>
        have he : e ≠ SwitchErr.inconsistency := by
          intro hcontra
          exact tempPoseBones_not_inconsistency w rest (hcontra ▸ hr)
        simpa using he
      | ok pbs => simp

/-- `rewireOne` raises only `keyError`. -/
theorem rewireOne_not_inconsistency (w : World) (i c cid : Nat) :
    rewireOne w i c cid ≠ .error .inconsistency := by
  intro h
  unfold rewireOne at h
  dsimp only at h
  split at h <;> simp_all

/-- `rewireAll` never raises the consistency `RuntimeError`. -/
theorem rewireAll_not_inconsistency :
    ∀ (l : List (Nat × (Nat × Nat))) (w : World), rewireAll w l ≠ .error .inconsistency
  | [], w => by simp [rewireAll]
  | (i, (c, cid)) :: rest, w => by
    simp only [rewireAll]
    cases hb : rewireOne w i c cid with
    | error e =>
      have he : e ≠ SwitchErr.inconsistency := by
        intro hcontra
        exact rewireOne_not_inconsistency w i c cid (hcontra ▸ hb)
      simpa using he
    | ok w1 =>
      dsimp only
      exact rewireAll_not_inconsistency rest w1

/-- The construction loop records exactly one copy name per source bone. -/
theorem buildCopies_length (dest : Option Nat) :
    ∀ (srcs : List Nat) (w w1 : World) (cs : List Nat),
      buildCopies dest w srcs = .ok (w1, cs) → cs.length = srcs.length
  | [], w, w1, cs, h => by
    simp only [buildCopies] at h
    cases h
    rfl
  | i :: rest, w, w1, cs, h => by
    simp only [buildCopies] at h
    split at h
    · exact absurd h (by simp)
    · split at h
      · exact absurd h (by simp)
      · rename_i w0 c heq w2 cs2 heq2
        cases h
        simp [buildCopies_length dest rest _ _ _ heq2]

/-- The wiring loop records exactly one (copy, constraint) pair per input
pair. -/
theorem wireCopies_length (dest : Option Nat) (act : Option BoneRef) :
    ∀ (ps : List (Nat × Nat)) (w w2 : World) (pairs : List (Nat × Nat)),
      wireCopies dest act w ps = .ok (w2, pairs) → pairs.length = ps.length
  | [], w, w2, pairs, h => by
    simp only [wireCopies] at h
    cases h
    rfl
  | (i, c) :: rest, w, w2, pairs, h => by
    simp only [wireCopies] at h
    split at h
    · exact absurd h (by simp)
    · split at h
      · exact absurd h (by simp)
      · rename_i w0 cid heq w3 ps2 heq2
        cases h
        simp [wireCopies_length dest act rest _ _ _ heq2]

/-- Claim C10: the two `RuntimeError` length checks of `_space_switch` can
never fire: the construction loops append exactly one element per source
entity, so the parallel lists always have equal length and for every input
the operation either succeeds or fails with a lookup/bake error — never with
the internal-inconsistency error. -/
theorem space_switch_inconsistency_unreachable (env : BakeEnv) (w : World)
    (src_ids : List Nat) (dest : Option Nat) (frames : List Int) :
    space_switch_core env w src_ids dest frames ≠ .error .inconsistency := by
  intro h
  unfold space_switch_core at h
  dsimp only at h
  split at h
  · exact absurd h (by simp)
  · split at h
    · rename_i e heq
      have he : e = SwitchErr.inconsistency := by injection h
      exact buildCopies_not_inconsistency dest _ _ (he ▸ heq)
    · rename_i w1 names heq
      split at h
      · rename_i hlen
        have hl := buildCopies_length dest _ _ _ _ heq
        simp [hl] at hlen
      · split at h
        · rename_i e heq2
          have he : e = SwitchErr.inconsistency := by injection h
          exact wireCopies_not_inconsistency dest _ _ _ (he ▸ heq2)
        · rename_i w2 pairs heq2
          split at h
          · rename_i e heq3
            have he : e = SwitchErr.inconsistency := by injection h
            exact tempPoseBones_not_inconsistency _ _ (he ▸ heq3)
          · split at h
            · exact absurd h (by simp)
            · split at h
              · rename_i hlen2
                have h1 := wireCopies_length dest _ _ _ _ _ heq2
                have h2 := buildCopies_length dest _ _ _ _ heq
                simp [h1, h2] at hlen2
              · have hx := except_map_error_inv _ _ _ h
                exact rewireAll_not_inconsistency _ _ hx

/-! ### Lookup/update infrastructure for the hierarchy proofs -/

/-- `find?` by one identifier through a map targeting a different identifier. -/
theorem find?_map_update_ne {α : Type} (id_ : α → Nat) (l : List α) (jid : Nat) (f : α → α)
    (hf : ∀ b, id_ (f b) = id_ b) (j : Nat) (hjj : j ≠ jid) :
    (l.map (fun b => if id_ b == jid then f b else b)).find? (fun b => id_ b == j) =
      l.find? (fun b => id_ b == j) := by
  induction l with
  | nil => rfl
  | cons b rest ih =>
    simp only [List.map_cons]
    by_cases hbj : id_ b = jid
    · rw [show (if (id_ b == jid) = true then f b else b) = f b by simp [hbj]]
      rw [List.find?_cons_of_neg _ (by simp [hf b, hbj]; omega),
          List.find?_cons_of_neg _ (by simp [hbj]; omega), ih]
    · rw [show (if (id_ b == jid) = true then f b else b) = b by simp [hbj]]
      by_cases hbj2 : id_ b = j
      · rw [List.find?_cons_of_pos _ (by simp [hbj2]), List.find?_cons_of_pos _ (by simp [hbj2])]
      · rw [List.find?_cons_of_neg _ (by simp [hbj2]), List.find?_cons_of_neg _ (by simp [hbj2]),
            ih]

/-- `find?` by an identifier through a map targeting that same identifier. -/
theorem find?_map_update_eq {α : Type} (id_ : α → Nat) (l : List α) (jid : Nat) (f : α → α)
    (hf : ∀ b, id_ (f b) = id_ b) :
    (l.map (fun b => if id_ b == jid then f b else b)).find? (fun b => id_ b == jid) =
      (l.find? (fun b => id_ b == jid)).map f := by
  induction l with
  | nil => rfl
  | cons b rest ih =>
    simp only [List.map_cons]
    by_cases hbj : id_ b = jid
    · rw [show (if (id_ b == jid) = true then f b else b) = f b by simp [hbj]]
      rw [List.find?_cons_of_pos _ (by simp [hf b, hbj]), List.find?_cons_of_pos _ (by simp [hbj])]
      rfl
    · rw [show (if (id_ b == jid) = true then f b else b) = b by simp [hbj]]
      rw [List.find?_cons_of_neg _ (by simp [hbj]), List.find?_cons_of_neg _ (by simp [hbj]), ih]

/-- `find?` by identifier through an unconditional identifier-preserving map. -/
theorem find?_map_all {α : Type} (id_ : α → Nat) (l : List α) (f : α → α)
    (hf : ∀ b, id_ (f b) = id_ b) (j : Nat) :
    (l.map f).find? (fun b => id_ b == j) = (l.find? (fun b => id_ b == j)).map f := by
  induction l with
  | nil => rfl
  | cons b rest ih =>
    simp only [List.map_cons]
    by_cases hbj : id_ b = j
    · rw [List.find?_cons_of_pos _ (by simp [hf b, hbj]), List.find?_cons_of_pos _ (by simp [hbj])]
      rfl
    · rw [List.find?_cons_of_neg _ (by simp [hf b, hbj]), List.find?_cons_of_neg _ (by simp [hbj]),
          ih]

/-- `findTemp` through `updateTemp`. -/
theorem findTemp_updateTemp (w : World) (jid : Nat) (f : TempBone → TempBone)
    (hf : ∀ b, (f b).id = b.id) (j : Nat) :
    findTemp (updateTemp w jid f) j =
      if j = jid then (findTemp w jid).map f else findTemp w j := by
  by_cases hjj : j = jid
  · subst hjj
    rw [if_pos rfl]
    exact find?_map_update_eq TempBone.id w.tempBones j f hf
  · rw [if_neg hjj]
    exact find?_map_update_ne TempBone.id w.tempBones jid f hf j hjj

/-- `findSrc` through `updateSrc`. -/
theorem findSrc_updateSrc (w : World) (jid : Nat) (f : SrcBone → SrcBone)
    (hf : ∀ b, (f b).id = b.id) (j : Nat) :
    findSrc (updateSrc w jid f) j =
      if j = jid then (findSrc w jid).map f else findSrc w j := by
  by_cases hjj : j = jid
  · subst hjj
    rw [if_pos rfl]
    exact find?_map_update_eq SrcBone.id w.srcBones j f hf
  · rw [if_neg hjj]
    exact find?_map_update_ne SrcBone.id w.srcBones jid f hf j hjj

/-- `findSrc` is unaffected by `updateTemp`. -/
theorem findSrc_updateTemp (w : World) (jid : Nat) (f : TempBone → TempBone) (j : Nat) :
    findSrc (updateTemp w jid f) j = findSrc w j := rfl

/-- `findTemp` is unaffected by `updateSrc`. -/
theorem findTemp_updateSrc (w : World) (jid : Nat) (f : SrcBone → SrcBone) (j : Nat) :
    findTemp (updateSrc w jid f) j = findTemp w j := rfl

/-- `find?` over an append. -/
theorem find?_append_or {α : Type} (p : α → Bool) :
    ∀ (l1 l2 : List α), (l1 ++ l2).find? p = ((l1.find? p).or (l2.find? p))
  | [], l2 => rfl
  | a :: l1, l2 => by
    by_cases h : p a
    · rw [List.cons_append, List.find?_cons_of_pos _ h, List.find?_cons_of_pos _ h]
      rfl
    · rw [List.cons_append, List.find?_cons_of_neg _ h, List.find?_cons_of_neg _ h,
          find?_append_or p l1 l2]

/-- Appending fresh bones does not affect lookups of ids they do not carry. -/
theorem findTemp_append_old (w : World) (new : List TempBone) (sc j : Nat)
    (hnew : ∀ b ∈ new, ¬(b.id = j)) :
    findTemp { w with tempBones := w.tempBones ++ new, nextId := sc } j = findTemp w j := by
  unfold findTemp
  dsimp only
  rw [find?_append_or]
  rw [show new.find? (fun b => b.id == j) = none from
    List.find?_eq_none.mpr (fun b hb => by simpa using hnew b hb)]
  cases w.tempBones.find? (fun b => b.id == j) <;> rfl

/-- A lookup that misses all old bones lands in the appended ones. -/
theorem findTemp_append_new (w : World) (new : List TempBone) (sc j : Nat)
    (hold : ∀ b ∈ w.tempBones, ¬(b.id = j)) :
    findTemp { w with tempBones := w.tempBones ++ new, nextId := sc } j =
      new.find? (fun b => b.id == j) := by
  unfold findTemp
  dsimp only
  rw [find?_append_or]
  rw [show w.tempBones.find? (fun b => b.id == j) = none from
    List.find?_eq_none.mpr (fun b hb => by simpa using hold b hb)]
  rfl

/-- The number of temporary bones created for one source bone. -/
def segWidth (dest : Option Nat) (s : SrcBone) : Nat :=
  if s.use_connect then 3 else match dest with | some _ => 2 | none => 1

/-- The copy and anchor bones created for one source bone, as looked up in a
world: the connected two-anchor chain, the destination anchor, or a bare root
copy. -/
def builtAt (dest : Option Nat) (s : SrcBone) (c : Nat) (w : World) : Prop :=
  if s.use_connect then
    findTemp w c = some { newTempBone c with parent := some (c+2), use_connect := true } ∧
    findTemp w (c+1) = some (newTempBone (c+1)) ∧
    findTemp w (c+2) = some { newTempBone (c+2) with parent := some (c+1) }
  else
    match dest with
    | some _ =>
      findTemp w c = some { newTempBone c with parent := some (c+1) } ∧
      findTemp w (c+1) = some (newTempBone (c+1))
    | none => findTemp w c = some (newTempBone c)

/-- Bounds for the identifiers of a freshly appended segment. -/
theorem append_wf (old new : List TempBone) (n k : Nat)
    (hwf : ∀ b ∈ old, b.id < n) (hnew : ∀ b ∈ new, b.id < k)
    (hk : n ≤ k) : ∀ b ∈ old ++ new, b.id < k := by
  intro b hb
  rcases List.mem_append.mp hb with hb | hb
  · exact lt_of_lt_of_le (hwf b hb) hk
  · exact hnew b hb

/-- Inversion of one construction step. -/
theorem buildOne_inv (dest : Option Nat) (w : World) (i : Nat) (w1 : World) (c : Nat)
    (h : buildOne dest w i = .ok (w1, c))
    (hwf : ∀ b ∈ w.tempBones, b.id < w.nextId) :
    c = w.nextId ∧ ∃ s, findSrc w i = some s ∧
      w1.srcBones = w.srcBones ∧ w1.scene = w.scene ∧ w1.active = w.active ∧
      w1.nextId = w.nextId + segWidth dest s ∧
      (∀ b ∈ w1.tempBones, b.id < w1.nextId) ∧
      builtAt dest s c w1 ∧
      (∀ j, j < w.nextId → findTemp w1 j = findTemp w j) := by
  unfold buildOne at h
  cases hs : findSrc w i with
  | none => rw [hs] at h; exact absurd h (by simp)
  | some s =>
    rw [hs] at h
    dsimp only at h
    by_cases hu : s.use_connect
    · rw [if_pos hu] at h
      cases h
      refine ⟨rfl, s, rfl, rfl, rfl, rfl, by simp [segWidth, hu], ?_, ?_, ?_⟩
      · refine append_wf _ _ _ _ hwf ?_ (by simp [segWidth, hu])
        intro b hb
        simp only [List.mem_cons, List.not_mem_nil, or_false] at hb
        rcases hb with h1 | h1 | h1 <;> (subst h1; simp only [newTempBone]) <;>
          simp [segWidth, hu]
      · unfold builtAt
        rw [if_pos hu]
        refine ⟨?_, ?_, ?_⟩
        · rw [findTemp_append_new _ _ _ _ (fun b hb => by have := hwf b hb; omega)]
          rw [List.find?_cons_of_pos _ (by simp [newTempBone])]
        · rw [findTemp_append_new _ _ _ _ (fun b hb => by have := hwf b hb; omega)]
          rw [List.find?_cons_of_neg _ (by simp only [newTempBone]; simp),
              List.find?_cons_of_pos _ (by simp [newTempBone])]
        · rw [findTemp_append_new _ _ _ _ (fun b hb => by have := hwf b hb; omega)]
          rw [List.find?_cons_of_neg _ (by simp only [newTempBone]; simp),
              List.find?_cons_of_neg _ (by simp only [newTempBone]; simp),
              List.find?_cons_of_pos _ (by simp [newTempBone])]
      · intro j hj
        rw [findTemp_append_old]
        intro b hb
        simp only [List.mem_cons, List.not_mem_nil, or_false] at hb
        rcases hb with h1 | h1 | h1 <;> (subst h1; simp only [newTempBone]; omega)
    · rw [if_neg hu] at h
      have hu2 : s.use_connect = false := by simpa using hu
      cases hd : dest with
      | some d =>
        rw [hd] at h
        cases h
        refine ⟨rfl, s, rfl, rfl, rfl, rfl, by simp [segWidth, hu2], ?_, ?_, ?_⟩
        · refine append_wf _ _ _ _ hwf ?_ (by simp [segWidth, hu2])
          intro b hb
          simp only [List.mem_cons, List.not_mem_nil, or_false] at hb
          rcases hb with h1 | h1 <;> (subst h1; simp only [newTempBone]) <;>
            simp [segWidth, hu2]
        · unfold builtAt
          rw [if_neg hu]
          refine ⟨?_, ?_⟩
          · rw [findTemp_append_new _ _ _ _ (fun b hb => by have := hwf b hb; omega)]
            rw [List.find?_cons_of_pos _ (by simp [newTempBone])]
          · rw [findTemp_append_new _ _ _ _ (fun b hb => by have := hwf b hb; omega)]
            rw [List.find?_cons_of_neg _ (by simp only [newTempBone]; simp),
                List.find?_cons_of_pos _ (by simp [newTempBone])]
        · intro j hj
          rw [findTemp_append_old]
          intro b hb
          simp only [List.mem_cons, List.not_mem_nil, or_false] at hb
          rcases hb with h1 | h1 <;> (subst h1; simp only [newTempBone]; omega)
      | none =>
        rw [hd] at h
        cases h
        refine ⟨rfl, s, rfl, rfl, rfl, rfl, by simp [segWidth, hu2], ?_, ?_, ?_⟩
        · refine append_wf _ _ _ _ hwf ?_ (by simp [segWidth, hu2])
          intro b hb
          simp only [List.mem_cons, List.not_mem_nil, or_false] at hb
          subst hb
          simp [newTempBone, segWidth, hu2]
        · unfold builtAt
          rw [if_neg hu]
          rw [findTemp_append_new _ _ _ _ (fun b hb => by have := hwf b hb; omega)]
          rw [List.find?_cons_of_pos _ (by simp [newTempBone])]
        · intro j hj
          rw [findTemp_append_old]
          intro b hb
          simp only [List.mem_cons, List.not_mem_nil, or_false] at hb
          subst hb
          simp only [newTempBone]
          omega

/-- The chained construction facts for a list of (source id, copy id) pairs:
one segment per source bone, at consecutive identifier offsets. -/
def builtChain (dest : Option Nat) (sb : List SrcBone) (w : World) :
    Nat → List (Nat × Nat) → Prop
  | _, [] => True
  | n, (i, c) :: rest =>
    c = n ∧ ∃ s, sb.find? (fun b => b.id == i) = some s ∧ builtAt dest s c w ∧
      builtChain dest sb w (n + segWidth dest s) rest

/-- `builtAt` only inspects the identifiers of its own segment (low form). -/
theorem builtAt_frame_lt (dest : Option Nat) (s : SrcBone) (c : Nat) (w w' : World)
    (hfr : ∀ j, j < c + segWidth dest s → findTemp w' j = findTemp w j)
    (hb : builtAt dest s c w) : builtAt dest s c w' := by
  unfold builtAt at hb ⊢
  by_cases hu : s.use_connect
  · rw [if_pos hu] at hb ⊢
    refine ⟨?_, ?_, ?_⟩
    · rw [hfr c (by simp only [segWidth, if_pos hu]; omega)]
      exact hb.1
    · rw [hfr (c+1) (by simp only [segWidth, if_pos hu]; omega)]
      exact hb.2.1
    · rw [hfr (c+2) (by simp only [segWidth, if_pos hu]; omega)]
      exact hb.2.2
  · rw [if_neg hu] at hb ⊢
    cases dest with
    | some d =>
      refine ⟨?_, ?_⟩
      · rw [hfr c (by simp only [segWidth, if_neg hu]; omega)]
        exact hb.1
      · rw [hfr (c+1) (by simp only [segWidth, if_neg hu]; omega)]
        exact hb.2
    | none =>
      rw [hfr c (by simp only [segWidth, if_neg hu]; omega)]
      exact hb

/-- `builtAt` only inspects the identifiers of its own segment (high form). -/
theorem builtAt_frame_ge (dest : Option Nat) (s : SrcBone) (c : Nat) (w w' : World)
    (hfr : ∀ j, c ≤ j → findTemp w' j = findTemp w j)
    (hb : builtAt dest s c w) : builtAt dest s c w' := by
  unfold builtAt at hb ⊢
  by_cases hu : s.use_connect
  · rw [if_pos hu] at hb ⊢
    refine ⟨?_, ?_, ?_⟩
    · rw [hfr c le_rfl]
      exact hb.1
    · rw [hfr (c+1) (by omega)]
      exact hb.2.1
    · rw [hfr (c+2) (by omega)]
      exact hb.2.2
  · rw [if_neg hu] at hb ⊢
    cases dest with
    | some d =>
      refine ⟨?_, ?_⟩
      · rw [hfr c le_rfl]
        exact hb.1
      · rw [hfr (c+1) (by omega)]
        exact hb.2
    | none =>
      rw [hfr c le_rfl]
      exact hb

/-- A built chain survives any world change that preserves lookups at or
above its base identifier. -/
theorem builtChain_frame_ge (dest : Option Nat) (sb : List SrcBone) :
    ∀ (l : List (Nat × Nat)) (m : Nat) (w w' : World),
      (∀ j, m ≤ j → findTemp w' j = findTemp w j) →
      builtChain dest sb w m l → builtChain dest sb w' m l
  | [], _, _, _, _, _ => trivial
  | (i, c) :: rest, m, w, w', hfr, hc => by
    obtain ⟨hcm, s, hsf, hba, hrest⟩ := hc
    exact ⟨hcm, s, hsf,
      builtAt_frame_ge dest s c w w' (fun j hj => hfr j (by omega)) hba,
      builtChain_frame_ge dest sb rest (m + segWidth dest s) w w'
        (fun j hj => hfr j (by omega)) hrest⟩

/-- Specification of the whole construction loop. -/
theorem buildCopies_spec (dest : Option Nat) :
    ∀ (srcs : List Nat) (w w1 : World) (cs : List Nat),
      buildCopies dest w srcs = .ok (w1, cs) →
      (∀ b ∈ w.tempBones, b.id < w.nextId) →
      w1.srcBones = w.srcBones ∧ w1.scene = w.scene ∧ w1.active = w.active ∧
      w.nextId ≤ w1.nextId ∧ (∀ b ∈ w1.tempBones, b.id < w1.nextId) ∧
      builtChain dest w.srcBones w1 w.nextId (srcs.zip cs) ∧
      (∀ j, j < w.nextId → findTemp w1 j = findTemp w j)
  | [], w, w1, cs, h, hwf => by
    simp only [buildCopies] at h
    cases h
    exact ⟨rfl, rfl, rfl, le_rfl, hwf, trivial, fun j hj => rfl⟩
  | i :: rest, w, w1, cs, h, hwf => by
    simp only [buildCopies] at h
    split at h
    · exact absurd h (by simp)
    · rename_i wA c heqA
      split at h
      · exact absurd h (by simp)
      · rename_i wB cs2 heqB
        cases h
        obtain ⟨hc, s, hs, hsrc, hscene, hact, hnext, hwfA, hba, hfrA⟩ :=
          buildOne_inv dest w i wA c heqA hwf
        obtain ⟨hsrcB, hsceneB, hactB, hnextB, hwfB, hchainB, hfrB⟩ :=
          buildCopies_spec dest rest wA w1 cs2 heqB hwfA
        subst hc
        refine ⟨hsrcB.trans hsrc, hsceneB.trans hscene, hactB.trans hact, by omega, hwfB,
          ?_, ?_⟩
        · refine ⟨rfl, s, hs, ?_, ?_⟩
          · exact builtAt_frame_lt dest s w.nextId wA w1
              (fun j hj => hfrB j (by omega)) hba
          · rw [hsrc] at hchainB
            rw [hnext] at hchainB
            exact hchainB
        · intro j hj
          rw [hfrB j (by omega), hfrA j hj]

/-! ### Pose-mode wiring specification -/

/-- `updateTemp` leaves source bones unchanged. -/
theorem updateTemp_srcBones (w : World) (jid : Nat) (f : TempBone → TempBone) :
    (updateTemp w jid f).srcBones = w.srcBones := rfl

/-- `updateTemp` leaves the counter unchanged. -/
theorem updateTemp_nextId (w : World) (jid : Nat) (f : TempBone → TempBone) :
    (updateTemp w jid f).nextId = w.nextId := rfl

/-- `updateTemp` leaves the scene unchanged. -/
theorem updateTemp_scene (w : World) (jid : Nat) (f : TempBone → TempBone) :
    (updateTemp w jid f).scene = w.scene := rfl

/-- `updateTemp` leaves the active bone unchanged. -/
theorem updateTemp_active (w : World) (jid : Nat) (f : TempBone → TempBone) :
    (updateTemp w jid f).active = w.active := rfl

/-- Setting the counter does not change lookups. -/
theorem findTemp_withNextId (w : World) (n : Nat) (j : Nat) :
    findTemp { w with nextId := n } j = findTemp w j := rfl

/-- Setting the active bone does not change lookups. -/
theorem findTemp_withActive (w : World) (a : Option BoneRef) (j : Nat) :
    findTemp { w with active := a } j = findTemp w j := rfl

/-- The copy bone after pose-mode wiring (capture constraint still present). -/
def wiredCopy (s : SrcBone) (i c cid : Nat) (par : Option Nat) (conn : Bool) : TempBone :=
  { id := c, parent := par, use_connect := conn, tag := .COPY, hide := false,
    select := true, rotation_mode := wireMode s,
    constraints := [⟨cid, .COPY_TRANSFORMS, some (.src i), none, 0⟩] }

/-- An anchor bone after pose-mode wiring. -/
def wiredAnchor (c : Nat) (par : Option Nat) (cons : List Constraint) : TempBone :=
  { id := c, parent := par, use_connect := false, tag := .SPACE, hide := true,
    select := false, rotation_mode := .QUATERNION, constraints := cons }

/-- The anchor constraints of the connected case: `COPY_LOCATION` to the
source's parent tail, plus a `COPY_ROTATION` to the destination when one is
given. -/
def connectedAnchorCons (dest : Option Nat) (sp n1 : Nat) : List Constraint :=
  [⟨n1, .COPY_LOCATION, some (.src sp), none, 1⟩] ++
    (match dest with
     | some d => [⟨n1+1, .COPY_ROTATION, some (.src d), none, 0⟩]
     | none => [])

/-- The per-pair wiring facts after the pose-mode loop. -/
def wiredAt (dest : Option Nat) (s : SrcBone) (i c cid : Nat) (w : World) : Prop :=
  if s.use_connect then
    ∃ sp, s.parent = some sp ∧
      findTemp w c = some (wiredCopy s i c cid (some (c+2)) true) ∧
      findTemp w (c+2) = some (wiredAnchor (c+2) (some (c+1)) []) ∧
      ∃ n1, findTemp w (c+1) = some (wiredAnchor (c+1) none (connectedAnchorCons dest sp n1))
  else
    match dest with
    | some d =>
      findTemp w c = some (wiredCopy s i c cid (some (c+1)) false) ∧
      ∃ n1, findTemp w (c+1) = some (wiredAnchor (c+1) none
        [⟨n1, .COPY_LOCATION, some (.src d), none, 0⟩,
         ⟨n1+1, .COPY_ROTATION, some (.src d), none, 0⟩])
    | none =>
      findTemp w c = some (wiredCopy s i c cid none false)

/-- Specification of the connected anchor wiring. -/
theorem wireAnchorConnected_spec (dest : Option Nat) (s : SrcBone) (w : World) (p gp sp : Nat)
    (pb : TempBone) (hp : findTemp w p = some pb) (hpar : pb.parent = some gp)
    (hsp : s.parent = some sp) (hne : p ≠ gp) :
    ∃ w2, wireAnchorConnected dest s w p = .ok w2 ∧
      w2.srcBones = w.srcBones ∧ w2.scene = w.scene ∧ w2.active = w.active ∧
      (∀ j, j ≠ p → j ≠ gp → findTemp w2 j = findTemp w j) ∧
      findTemp w2 p = some { pb with hide := true, tag := .SPACE } ∧
      findTemp w2 gp = (findTemp w gp).map (fun b =>
        { b with
            hide := true
            tag := .SPACE
            constraints := b.constraints ++ connectedAnchorCons dest sp w.nextId }) := by
  unfold wireAnchorConnected
  rw [hp]
  dsimp only
  rw [hpar, hsp]
  dsimp only
  cases dest with
  | some d =>
    refine ⟨_, rfl, rfl, rfl, rfl, ?_, ?_, ?_⟩
    · intro j hjp hjgp
      rw [findTemp_withNextId, findTemp_updateTemp, if_neg hjgp,
          findTemp_withNextId, findTemp_updateTemp, if_neg hjgp,
          findTemp_updateTemp, if_neg hjgp,
          findTemp_updateTemp, if_neg hjp]
      all_goals (intro b; rfl)
    · rw [findTemp_withNextId, findTemp_updateTemp, if_neg hne,
          findTemp_withNextId, findTemp_updateTemp, if_neg hne,
          findTemp_updateTemp, if_neg hne,
          findTemp_updateTemp, if_pos rfl, hp]
      · simp [hpar]
      all_goals (intro b; rfl)
    · rw [findTemp_withNextId, findTemp_updateTemp, if_pos rfl,
          findTemp_withNextId, findTemp_updateTemp, if_pos rfl,
          findTemp_updateTemp, if_pos rfl,
          findTemp_updateTemp, if_neg (Ne.symm hne)]
      case _ =>
        cases findTemp w gp with
        | none => rfl
        | some b =>
          simp [connectedAnchorCons, updateTemp_nextId]
      all_goals (intro b; rfl)
  | none =>
    refine ⟨_, rfl, rfl, rfl, rfl, ?_, ?_, ?_⟩
    · intro j hjp hjgp
      rw [findTemp_withNextId, findTemp_updateTemp, if_neg hjgp,
          findTemp_updateTemp, if_neg hjgp,
          findTemp_updateTemp, if_neg hjp]
      all_goals (intro b; rfl)
    · rw [findTemp_withNextId, findTemp_updateTemp, if_neg hne,
          findTemp_updateTemp, if_neg hne,
          findTemp_updateTemp, if_pos rfl, hp]
      · simp [hpar]
      all_goals (intro b; rfl)
    · rw [findTemp_withNextId, findTemp_updateTemp, if_pos rfl,
          findTemp_updateTemp, if_pos rfl,
          findTemp_updateTemp, if_neg (Ne.symm hne)]
      case _ =>
        cases findTemp w gp with
        | none => rfl
        | some b =>
          simp [connectedAnchorCons, updateTemp_nextId]
      all_goals (intro b; rfl)

/-- Specification of the copy-bone wiring step. -/
theorem wireCopyStep_spec (act : Option BoneRef) (w : World) (i c : Nat) (s : SrcBone) :
    (wireCopyStep act w i c s).srcBones = w.srcBones ∧
    (wireCopyStep act w i c s).scene = w.scene ∧
    (wireCopyStep act w i c s).nextId = w.nextId + 1 ∧
    (∀ j, j ≠ c → findTemp (wireCopyStep act w i c s) j = findTemp w j) ∧
    findTemp (wireCopyStep act w i c s) c = (findTemp w c).map (fun b =>
      { b with
          select := true
          tag := Tag.COPY
          rotation_mode := wireMode s
          constraints := b.constraints ++
            [⟨w.nextId, .COPY_TRANSFORMS, some (.src i), none, 0⟩] }) := by
  refine ⟨rfl, rfl, rfl, ?_, ?_⟩
  · intro j hjc
    show findTemp (updateTemp w c _) j = findTemp w j
    rw [findTemp_updateTemp, if_neg hjc]
    intro b
    rfl
  · show findTemp (updateTemp w c _) c = _
    rw [findTemp_updateTemp, if_pos rfl]
    intro b
    rfl

/-- Specification of the unconnected anchor wiring. -/
theorem wireAnchorUnconnected_spec (dest : Option Nat) (w : World) (p : Nat) :
    (wireAnchorUnconnected dest w p).srcBones = w.srcBones ∧
    (wireAnchorUnconnected dest w p).scene = w.scene ∧
    (∀ j, j ≠ p → findTemp (wireAnchorUnconnected dest w p) j = findTemp w j) ∧
    findTemp (wireAnchorUnconnected dest w p) p = (findTemp w p).map (fun b =>
      { b with
          hide := true
          tag := Tag.SPACE
          constraints := b.constraints ++
            ([⟨w.nextId, .COPY_LOCATION, dest.map BoneRef.src, none, 0⟩] ++
             (match dest with
              | some d => [⟨w.nextId + 1, .COPY_ROTATION, some (.src d), none, 0⟩]
              | none => [])) }) := by
  unfold wireAnchorUnconnected
  cases dest with
  | some d =>
    refine ⟨rfl, rfl, ?_, ?_⟩
    · intro j hjp
      rw [findTemp_withNextId, findTemp_updateTemp, if_neg hjp,
          findTemp_withNextId, findTemp_updateTemp, if_neg hjp,
          findTemp_updateTemp, if_neg hjp]
      all_goals (intro b; rfl)
    · rw [findTemp_withNextId, findTemp_updateTemp, if_pos rfl,
          findTemp_withNextId, findTemp_updateTemp, if_pos rfl,
          findTemp_updateTemp, if_pos rfl]
      case _ =>
        cases findTemp w p with
        | none => rfl
        | some b => simp [updateTemp_nextId]
      all_goals (intro b; rfl)
  | none =>
    refine ⟨rfl, rfl, ?_, ?_⟩
    · intro j hjp
      rw [findTemp_withNextId, findTemp_updateTemp, if_neg hjp,
          findTemp_updateTemp, if_neg hjp]
      all_goals (intro b; rfl)
    · rw [findTemp_withNextId, findTemp_updateTemp, if_pos rfl,
          findTemp_updateTemp, if_pos rfl]
      case _ =>
        cases findTemp w p with
        | none => rfl
        | some b => simp [updateTemp_nextId]
      all_goals (intro b; rfl)

/-- The connected anchor wiring raises `keyError` when the source has no
parent (`src_pose_bone.parent` dereference). -/
theorem wireAnchorConnected_noparent (dest : Option Nat) (s : SrcBone) (w : World) (p gp : Nat)
    (pb : TempBone) (hp : findTemp w p = some pb) (hpar : pb.parent = some gp)
    (hsp : s.parent = none) :
    wireAnchorConnected dest s w p = .error .keyError := by
  unfold wireAnchorConnected
  rw [hp]
  dsimp only
  rw [hpar, hsp]

/-- Specification of one wiring step, given the construction facts for its
segment. -/
theorem wireOne_spec (dest : Option Nat) (act : Option BoneRef) (w : World) (i c : Nat)
    (s : SrcBone) (hs : findSrc w i = some s) (hb : builtAt dest s c w) :
    (s.use_connect = true ∧ s.parent = none ∧ wireOne dest act w i c = .error .keyError) ∨
    ∃ w', wireOne dest act w i c = .ok (w', w.nextId) ∧
      w'.srcBones = w.srcBones ∧ w'.scene = w.scene ∧
      wiredAt dest s i c w.nextId w' ∧
      (∀ j, j < c ∨ c + segWidth dest s ≤ j → findTemp w' j = findTemp w j) := by
  obtain ⟨hsb, hsc, hsn, hstep, hstepc⟩ := wireCopyStep_spec act w i c s
  unfold wireOne
  rw [hs]
  unfold builtAt at hb
  by_cases hu : s.use_connect
  · rw [if_pos hu] at hb
    obtain ⟨hbc, hbp, hbgp⟩ := hb
    rw [hbc]
    dsimp only
    rw [if_pos hu]
    have hwidth : segWidth dest s = 3 := by simp [segWidth, hu]
    have hp2 : findTemp (wireCopyStep act w i c s) (c+2) =
        some { newTempBone (c+2) with parent := some (c+1) } := by
      rw [hstep (c+2) (by omega)]
      exact hbgp
    cases hsp : s.parent with
    | none =>
      left
      refine ⟨hu, rfl, ?_⟩
      rw [wireAnchorConnected_noparent dest s _ (c+2) (c+1) _ hp2 rfl hsp]
    | some sp =>
      obtain ⟨w2, heq, h2sb, h2sc, h2act, h2fr, h2p, h2gp⟩ :=
        wireAnchorConnected_spec dest s (wireCopyStep act w i c s) (c+2) (c+1) sp _
          hp2 rfl hsp (by omega)
      rw [heq]
      refine Or.inr ⟨w2, rfl, h2sb.trans hsb, h2sc.trans hsc, ?_, ?_⟩
      · unfold wiredAt
        rw [if_pos hu]
        refine ⟨sp, hsp, ?_, ?_, ⟨w.nextId + 1, ?_⟩⟩
        · rw [h2fr c (by omega) (by omega), hstepc, hbc]
          rfl
        · rw [h2p]
          rfl
        · rw [h2gp, hstep (c+1) (by omega), hbp, hsn]
          rfl
      · intro j hj
        rw [hwidth] at hj
        rw [h2fr j (by omega) (by omega), hstep j (by omega)]
  · rw [if_neg hu] at hb
    have hu2 : s.use_connect = false := by simpa using hu
    cases hdest : dest with
    | some d =>
      rw [hdest] at hb
      obtain ⟨hbc, hbp⟩ := hb
      rw [hbc]
      dsimp only
      rw [if_neg hu]
      obtain ⟨usb, usc, ufr, up⟩ :=
        wireAnchorUnconnected_spec (some d) (wireCopyStep act w i c s) (c+1)
      refine Or.inr ⟨_, rfl, usb.trans hsb, usc.trans hsc, ?_, ?_⟩
      · unfold wiredAt
        rw [if_neg hu]
        refine ⟨?_, ⟨w.nextId + 1, ?_⟩⟩
        · rw [ufr c (by omega), hstepc, hbc]
          rfl
        · rw [up, hstep (c+1) (by omega), hbp, hsn]
          rfl
      · intro j hj
        have hwidth : segWidth (some d) s = 2 := by simp [segWidth, hu2]
        rw [hwidth] at hj
        rw [ufr j (by omega), hstep j (by omega)]
    | none =>
      rw [hdest] at hb
      dsimp only at hb
      rw [hb]
      dsimp only
      refine Or.inr ⟨_, rfl, hsb, hsc, ?_, ?_⟩
      · unfold wiredAt
        rw [if_neg hu]
        show findTemp (wireCopyStep act w i c s) c = some (wiredCopy s i c w.nextId none false)
        rw [hstepc, hb]
        rfl
      · intro j hj
        have hwidth : segWidth none s = 1 := by simp [segWidth, hu2]
        rw [hwidth] at hj
        rw [hstep j (by omega)]

/-- A wired segment survives any world change that preserves lookups below
the end of its segment. -/
theorem wiredAt_frame_lt (dest : Option Nat) (s : SrcBone) (i c cid : Nat) (w w' : World)
    (hfr : ∀ j, j < c + segWidth dest s → findTemp w' j = findTemp w j)
    (hb : wiredAt dest s i c cid w) : wiredAt dest s i c cid w' := by
  unfold wiredAt at hb ⊢
  by_cases hu : s.use_connect
  · rw [if_pos hu] at hb ⊢
    have hw : segWidth dest s = 3 := by simp [segWidth, hu]
    obtain ⟨sp, hsp, h1, h2, n1, h3⟩ := hb
    refine ⟨sp, hsp, ?_, ?_, n1, ?_⟩
    · rw [hfr c (by omega)]
      exact h1
    · rw [hfr (c+2) (by omega)]
      exact h2
    · rw [hfr (c+1) (by omega)]
      exact h3
  · rw [if_neg hu] at hb ⊢
    have hu2 : s.use_connect = false := by simpa using hu
    cases dest with
    | some d =>
      have hw : segWidth (some d) s = 2 := by simp [segWidth, hu2]
      obtain ⟨h1, n1, h2⟩ := hb
      refine ⟨?_, n1, ?_⟩
      · rw [hfr c (by omega)]
        exact h1
      · rw [hfr (c+1) (by omega)]
        exact h2
    | none =>
      have hw : segWidth none s = 1 := by simp [segWidth, hu2]
      rw [hfr c (by omega)]
      exact hb

/-- The wired form of a whole chain of segments: relates the construction
pairs (source id, copy id) with the recorded pairs
(copy id, capture-constraint id). -/
def wiredChain (dest : Option Nat) (sb : List SrcBone) (w : World) :
    List (Nat × Nat) → List (Nat × Nat) → Prop
  | [], [] => True
  | (i, c) :: rest, (c', cid) :: ps =>
    c' = c ∧ ∃ s, sb.find? (fun b => b.id == i) = some s ∧
      wiredAt dest s i c cid w ∧ wiredChain dest sb w rest ps
  | _, _ => False

/-- Specification of the whole pose-mode wiring loop. -/
theorem wireCopies_spec (dest : Option Nat) (act : Option BoneRef) :
    ∀ (pairs : List (Nat × Nat)) (w w1 : World) (ps : List (Nat × Nat)) (n : Nat),
      wireCopies dest act w pairs = .ok (w1, ps) →
      builtChain dest w.srcBones w n pairs →
      w1.srcBones = w.srcBones ∧ w1.scene = w.scene ∧
      ps.map Prod.fst = pairs.map Prod.snd ∧
      wiredChain dest w.srcBones w1 pairs ps ∧
      (∀ j, j < n → findTemp w1 j = findTemp w j)
  | [], w, w1, ps, n, h, _ => by
    simp only [wireCopies] at h
    cases h
    exact ⟨rfl, rfl, rfl, trivial, fun j _ => rfl⟩
  | (i, c) :: rest, w, w1, ps, n, h, hc => by
    obtain ⟨hcn, s, hsf, hba, hrest⟩ := hc
    subst hcn
    simp only [wireCopies] at h
    rcases wireOne_spec dest act w i c s hsf hba with
      ⟨_, _, herr⟩ | ⟨wA, hok, hAsrc, hAsc, hAw, hAfr⟩
    · rw [herr] at h
      cases h
    · rw [hok] at h
      dsimp only at h
      cases hrec : wireCopies dest act wA rest with
      | error e =>
        rw [hrec] at h
        cases h
      | ok pr =>
        obtain ⟨w2, ps'⟩ := pr
        rw [hrec] at h
        cases h
        have hchain : builtChain dest wA.srcBones wA (c + segWidth dest s) rest := by
          rw [hAsrc]
          exact builtChain_frame_ge dest w.srcBones rest (c + segWidth dest s) w wA
            (fun j hj => hAfr j (Or.inr hj)) hrest
        obtain ⟨h2src, h2sc, h2map, h2chain, h2fr⟩ :=
          wireCopies_spec dest act rest wA w1 ps' (c + segWidth dest s) hrec hchain
        refine ⟨h2src.trans hAsrc, h2sc.trans hAsc, ?_, ?_, ?_⟩
        · simpa using h2map
        · refine ⟨rfl, s, hsf, ?_, ?_⟩
          · exact wiredAt_frame_lt dest s i c w.nextId wA w1 h2fr hAw
          · rw [hAsrc] at h2chain
            exact h2chain
        · intro j hj
          rw [h2fr j (by omega), hAfr j (Or.inl hj)]

/-- `findSrc` ignores the identifier counter. -/
theorem findSrc_withNextId (w : World) (n : Nat) (j : Nat) :
    findSrc { w with nextId := n } j = findSrc w j := rfl

/-- The permanent constraints the rewiring step adds to a source bone:
a `COPY_ROTATION` targeting the copy always, preceded by a `COPY_LOCATION`
targeting the copy when the source is not connected. -/
def rewireCons (conn : Bool) (c n : Nat) : List Constraint :=
  if conn then [⟨n, .COPY_ROTATION, some (.temp c), none, 0⟩]
  else [⟨n, .COPY_LOCATION, some (.temp c), none, 0⟩,
        ⟨n + 1, .COPY_ROTATION, some (.temp c), none, 0⟩]

/-- Specification of one rewiring step. -/
theorem rewireOne_spec (w : World) (i c cid : Nat) (s : SrcBone)
    (hS : findSrc w i = some s) :
    ∃ w2, rewireOne w i c cid = .ok w2 ∧
      w2.scene = w.scene ∧
      (∀ j, j ≠ c → findTemp w2 j = findTemp w j) ∧
      findTemp w2 c = (findTemp w c).map (fun b =>
        { b with constraints := b.constraints.eraseP (fun con => con.cid == cid) }) ∧
      (∀ i', i' ≠ i → findSrc w2 i' = findSrc w i') ∧
      ∃ n, findSrc w2 i = some
        { s with constraints := s.constraints ++ rewireCons s.use_connect c n } := by
  unfold rewireOne
  dsimp only
  rw [findSrc_updateTemp, hS]
  dsimp only
  by_cases hu : s.use_connect
  · simp only [hu, Bool.not_true, Bool.false_eq_true, if_false]
    refine ⟨_, rfl, rfl, ?_, ?_, ?_, w.nextId, ?_⟩
    · intro j hj
      show findTemp (updateTemp w c _) j = findTemp w j
      rw [findTemp_updateTemp, if_neg hj]
      intro b
      rfl
    · show findTemp (updateTemp w c _) c = _
      rw [findTemp_updateTemp, if_pos rfl]
      intro b
      rfl
    · intro i' hi'
      rw [findSrc_withNextId, findSrc_updateSrc, if_neg hi', findSrc_updateTemp]
      intro b
      rfl
    · rw [findSrc_withNextId, findSrc_updateSrc, if_pos rfl, findSrc_updateTemp, hS]
      · simp [rewireCons, hu, updateTemp]
      · intro b
        rfl
  · have hu2 : s.use_connect = false := by simpa using hu
    simp only [hu2, Bool.not_false, if_true]
    refine ⟨_, rfl, rfl, ?_, ?_, ?_, w.nextId, ?_⟩
    · intro j hj
      show findTemp (updateTemp w c _) j = findTemp w j
      rw [findTemp_updateTemp, if_neg hj]
      intro b
      rfl
    · show findTemp (updateTemp w c _) c = _
      rw [findTemp_updateTemp, if_pos rfl]
      intro b
      rfl
    · intro i' hi'
      rw [findSrc_withNextId, findSrc_updateSrc, if_neg hi', findSrc_withNextId,
          findSrc_updateSrc, if_neg hi', findSrc_updateTemp]
      · intro b
        rfl
      · intro b
        rfl
    · rw [findSrc_withNextId, findSrc_updateSrc, if_pos rfl, findSrc_withNextId,
          findSrc_updateSrc, if_pos rfl, findSrc_updateTemp, hS]
      · simp [rewireCons, hu2, updateTemp]
      · intro b
        rfl
      · intro b
        rfl

/-- Specification of the whole rewiring loop, for pairwise-distinct sources
and copies. -/
theorem rewireAll_spec :
    ∀ (l : List (Nat × (Nat × Nat))) (w wF : World),
      rewireAll w l = .ok wF →
      (l.map Prod.fst).Nodup →
      (l.map (fun t => t.2.1)).Nodup →
      (∀ t ∈ l, ∃ s, findSrc w t.1 = some s) →
      wF.scene = w.scene ∧
      (∀ i, i ∉ l.map Prod.fst → findSrc wF i = findSrc w i) ∧
      (∀ j, j ∉ l.map (fun t => t.2.1) → findTemp wF j = findTemp w j) ∧
      ∀ t ∈ l, ∃ s, findSrc w t.1 = some s ∧
        (∃ n, findSrc wF t.1 = some
          { s with constraints := s.constraints ++ rewireCons s.use_connect t.2.1 n }) ∧
        findTemp wF t.2.1 = (findTemp w t.2.1).map (fun b =>
          { b with constraints := b.constraints.eraseP (fun con => con.cid == t.2.2) })
  | [], w, wF, h, _, _, _ => by
    simp only [rewireAll] at h
    cases h
    exact ⟨rfl, fun i _ => rfl, fun j _ => rfl, by simp⟩
  | (i, (c, cid)) :: rest, w, wF, h, hni, hnc, hex => by
    obtain ⟨s, hS⟩ := hex (i, (c, cid)) (by simp)
    obtain ⟨w1, hok, h1sc, h1tfr, h1tc, h1sfr, n0, h1si⟩ := rewireOne_spec w i c cid s hS
    simp only [rewireAll] at h
    rw [hok] at h
    dsimp only at h
    simp only [List.map_cons, List.nodup_cons] at hni hnc
    obtain ⟨hi_nin, hni'⟩ := hni
    obtain ⟨hc_nin, hnc'⟩ := hnc
    have hex' : ∀ t ∈ rest, ∃ s', findSrc w1 t.1 = some s' := by
      intro t ht
      obtain ⟨s', hs'⟩ := hex t (List.mem_cons_of_mem _ ht)
      have hne : t.1 ≠ i := fun he => hi_nin (he ▸ List.mem_map_of_mem Prod.fst ht)
      rw [h1sfr t.1 hne]
      exact ⟨s', hs'⟩
    obtain ⟨h2sc, h2sfr, h2tfr, h2all⟩ := rewireAll_spec rest w1 wF h hni' hnc' hex'
    refine ⟨h2sc.trans h1sc, ?_, ?_, ?_⟩
    · intro i' hi'
      simp only [List.map_cons, List.mem_cons, not_or] at hi'
      rw [h2sfr i' hi'.2, h1sfr i' hi'.1]
    · intro j hj
      simp only [List.map_cons, List.mem_cons, not_or] at hj
      rw [h2tfr j hj.2, h1tfr j hj.1]
    · intro t ht
      rcases List.mem_cons.mp ht with he | ht'
      · subst he
        refine ⟨s, hS, ⟨n0, ?_⟩, ?_⟩
        · rw [h2sfr i hi_nin]
          exact h1si
        · rw [h2tfr c hc_nin]
          exact h1tc
      · obtain ⟨s', hs', hgain, htc⟩ := h2all t ht'
        have hnei : t.1 ≠ i := fun he => hi_nin (he ▸ List.mem_map_of_mem Prod.fst ht')
        have hnec : t.2.1 ≠ c :=
          fun he => hc_nin (he ▸ List.mem_map_of_mem (fun t => t.2.1) ht')
        refine ⟨s', ?_, hgain, ?_⟩
        · rw [← h1sfr t.1 hnei]
          exact hs'
        · rw [htc, h1tfr t.2.1 hnec]

/-! ### From the wiring chain to the rewiring loop -/

/-- `findSrc` through the selection clearing, in map form. -/
theorem clearSelection_findSrc (w : World) (j : Nat) :
    findSrc (clearSelection w) j = (findSrc w j).map
      (fun b => if b.hide then b else { b with select := false }) :=
  find?_map_all SrcBone.id w.srcBones _ (fun b => by split <;> rfl) j

/-- The hide fold touches only the source bones. -/
theorem hideFold_world : ∀ (l : List Nat) (w : World),
    (l.foldl (fun acc i => updateSrc acc i
      (fun b => { b with hide := true })) w).tempBones = w.tempBones ∧
    (l.foldl (fun acc i => updateSrc acc i
      (fun b => { b with hide := true })) w).nextId = w.nextId ∧
    (l.foldl (fun acc i => updateSrc acc i
      (fun b => { b with hide := true })) w).scene = w.scene ∧
    (l.foldl (fun acc i => updateSrc acc i
      (fun b => { b with hide := true })) w).active = w.active
  | [], w => ⟨rfl, rfl, rfl, rfl⟩
  | i :: rest, w => by
    simp only [List.foldl_cons]
    exact hideFold_world rest (updateSrc w i _)

/-- `findSrc` through the hide fold, in map form. -/
theorem hideFold_findSrc : ∀ (l : List Nat) (w : World) (j : Nat),
    ∃ g : SrcBone → SrcBone,
      (∀ b, (g b).constraints = b.constraints ∧ (g b).use_connect = b.use_connect ∧
        (g b).parent = b.parent) ∧
      findSrc (l.foldl (fun acc i => updateSrc acc i
        (fun b => { b with hide := true })) w) j = (findSrc w j).map g
  | [], w, j => ⟨id, fun b => ⟨rfl, rfl, rfl⟩, by simp⟩
  | i :: rest, w, j => by
    simp only [List.foldl_cons]
    obtain ⟨g, hg, hfind⟩ := hideFold_findSrc rest (updateSrc w i _) j
    by_cases hji : j = i
    · subst hji
      refine ⟨fun b => g { b with hide := true },
        fun b => ⟨(hg _).1, (hg _).2.1, (hg _).2.2⟩, ?_⟩
      rw [hfind, findSrc_updateSrc]
      · rw [if_pos rfl]
        cases findSrc w j <;> rfl
      · intro b
        rfl
    · refine ⟨g, hg, ?_⟩
      rw [hfind, findSrc_updateSrc]
      · rw [if_neg hji]
      · intro b
        rfl

/-- `findSrc` through both preparation steps of `_space_switch`
(selection clearing, then source hiding), in map form. -/
theorem prep_findSrc (srcs : List Nat) (w : World) (j : Nat) :
    ∃ g : SrcBone → SrcBone,
      (∀ b, (g b).constraints = b.constraints ∧ (g b).use_connect = b.use_connect ∧
        (g b).parent = b.parent) ∧
      findSrc (srcs.foldl (fun acc i => updateSrc acc i
        (fun b => { b with hide := true })) (clearSelection w)) j =
        (findSrc w j).map g := by
  obtain ⟨g, hg, hfind⟩ := hideFold_findSrc srcs (clearSelection w) j
  refine ⟨fun b => g (if b.hide then b else { b with select := false }),
    fun b => ⟨(hg _).1.trans (by split <;> rfl), (hg _).2.1.trans (by split <;> rfl),
      (hg _).2.2.trans (by split <;> rfl)⟩, ?_⟩
  rw [hfind, clearSelection_findSrc]
  cases findSrc w j <;> rfl

/-- The segment width is positive. -/
theorem segWidth_pos (dest : Option Nat) (s : SrcBone) : 1 ≤ segWidth dest s := by
  unfold segWidth
  split
  · omega
  · cases dest <;> simp

/-- A built chain records each source bone as found. -/
theorem builtChain_found (dest : Option Nat) (sb : List SrcBone) :
    ∀ (l : List (Nat × Nat)) (n : Nat) (w : World), builtChain dest sb w n l →
      ∀ e ∈ l, ∃ s, sb.find? (fun b => b.id == e.1) = some s
  | [], _, _, _, _, he => absurd he (List.not_mem_nil _)
  | (i, c) :: rest, n, w, hc, e, he => by
    obtain ⟨hcn, s, hsf, _, hrest⟩ := hc
    rcases List.mem_cons.mp he with he | he
    · subst he
      exact ⟨s, hsf⟩
    · exact builtChain_found dest sb rest _ w hrest e he

/-- The copy identifiers of a built chain are at or above its base and
pairwise distinct. -/
theorem builtChain_nodup (dest : Option Nat) (sb : List SrcBone) :
    ∀ (l : List (Nat × Nat)) (n : Nat) (w : World), builtChain dest sb w n l →
      (∀ e ∈ l, n ≤ e.2) ∧ (l.map Prod.snd).Nodup
  | [], _, _, _ => ⟨fun e he => absurd he (List.not_mem_nil _), List.nodup_nil⟩
  | (i, c) :: rest, n, w, hc => by
    obtain ⟨hcn, s, hsf, _, hrest⟩ := hc
    subst hcn
    obtain ⟨hge, hnd⟩ := builtChain_nodup dest sb rest _ w hrest
    have hpos := segWidth_pos dest s
    constructor
    · intro e he
      rcases List.mem_cons.mp he with he | he
      · subst he
        exact le_rfl
      · have := hge e he
        omega
    · rw [List.map_cons, List.nodup_cons]
      refine ⟨?_, hnd⟩
      intro hmem
      obtain ⟨e, he, hee⟩ := List.mem_map.mp hmem
      have := hge e he
      omega

/-- Every segment of a wired chain has its source found and its copy in
wired form. -/
theorem wiredChain_facts (dest : Option Nat) (sb : List SrcBone) (w : World) :
    ∀ (pl ps : List (Nat × Nat)), wiredChain dest sb w pl ps →
      ∀ t ∈ (pl.map Prod.fst).zip ps, ∃ s,
        sb.find? (fun b => b.id == t.1) = some s ∧
        wiredAt dest s t.1 t.2.1 t.2.2 w
  | [], [], _, t, ht => absurd ht (by simp)
  | [], _ :: _, hc, _, _ => absurd hc (by simp [wiredChain])
  | _ :: _, [], hc, _, _ => absurd hc (by simp [wiredChain])
  | (i, c) :: pl, (c', cid) :: ps, hc, t, ht => by
    obtain ⟨hcc, s, hsf, hw, hrest⟩ := hc
    subst hcc
    rcases List.mem_cons.mp ht with he | he
    · subst he
      exact ⟨s, hsf, hw⟩
    · exact wiredChain_facts dest sb w pl ps hrest t he

/-- In every case of `wiredAt`, the copy itself is in `wiredCopy` form. -/
theorem wiredAt_copy (dest : Option Nat) (s : SrcBone) (i c cid : Nat) (w : World)
    (h : wiredAt dest s i c cid w) :
    ∃ par conn, findTemp w c = some (wiredCopy s i c cid par conn) := by
  unfold wiredAt at h
  by_cases hu : s.use_connect
  · rw [if_pos hu] at h
    obtain ⟨sp, _, h1, _⟩ := h
    exact ⟨some (c+2), true, h1⟩
  · rw [if_neg hu] at h
    cases dest with
    | some d => exact ⟨some (c+1), false, h.1⟩
    | none => exact ⟨none, false, h⟩

/-- C8: At the end of _space_switch, after baking: every CopyTransforms
capture constraint on the copies has been removed, and each source entity has
gained a CopyRotation constraint targeting its copy (always) and a
CopyLocation constraint targeting its copy if and only if the source is not
connected (`rewireCons`). -/
theorem space_switch_rewiring (env : BakeEnv) (w : World) (src_ids : List Nat)
    (dest : Option Nat) (frames : List Int) (wF : World) (pairs : List (Nat × Nat))
    (hwf : ∀ b ∈ w.tempBones, b.id < w.nextId)
    (hnodup : (erasedSrcs src_ids dest).Nodup)
    (h : space_switch_core env w src_ids dest frames = .ok (wF, pairs)) :
    ∀ p ∈ (erasedSrcs src_ids dest).zip pairs,
      (∃ t, findTemp wF p.2.1 = some t ∧ t.tag = Tag.COPY ∧ t.constraints = []) ∧
      ∃ s, findSrc w p.1 = some s ∧
        ∃ sF, findSrc wF p.1 = some sF ∧ sF.use_connect = s.use_connect ∧
          ∃ n, sF.constraints = s.constraints ++ rewireCons s.use_connect p.2.1 n := by
  unfold space_switch_core at h
  dsimp only at h
  split at h
  · cases h
    intro p hp
    simp at hp
  · rename_i hlen1
    split at h
    · exact absurd h (by simp)
    · rename_i wB names heqB
      split at h
      · exact absurd h (by simp)
      · rename_i hlen2
        split at h
        · exact absurd h (by simp)
        · rename_i wW pairs' heqW
          split at h
          · exact absurd h (by simp)
          · rename_i pbs heqT
            split at h
            · exact absurd h (by simp)
            · rename_i sc heqC
              split at h
              · exact absurd h (by simp)
              · rename_i hlen3
                cases hR : rewireAll
                    { srcBones := wW.srcBones, tempBones := wW.tempBones,
                      nextId := wW.nextId, scene := sc, active := wW.active }
                    ((erasedSrcs src_ids dest).zip pairs') with
                | error e =>
                  rw [hR] at h
                  exact absurd h (by simp [Except.map])
                | ok wR =>
                  rw [hR] at h
                  simp only [Except.map] at h
                  cases h
                  have hlenN : names.length = (erasedSrcs src_ids dest).length :=
                    buildCopies_length dest _ _ _ _ heqB
                  have hlenP : pairs.length =
                      ((erasedSrcs src_ids dest).zip names).length :=
                    wireCopies_length dest _ _ _ _ _ heqW
                  have hzipl : ((erasedSrcs src_ids dest).zip names).length =
                      (erasedSrcs src_ids dest).length := by
                    rw [List.length_zip, hlenN, Nat.min_self]
                  have hlenP2 : pairs.length = (erasedSrcs src_ids dest).length :=
                    hlenP.trans hzipl
                  obtain ⟨htB, hnB, hscB, hacB⟩ :=
                    hideFold_world (erasedSrcs src_ids dest) (clearSelection w)
                  have hwfH : ∀ b ∈ (List.foldl (fun acc i => updateSrc acc i fun b =>
                      { b with hide := true }) (clearSelection w)
                      (erasedSrcs src_ids dest)).tempBones,
                      b.id < (List.foldl (fun acc i => updateSrc acc i fun b =>
                      { b with hide := true }) (clearSelection w)
                      (erasedSrcs src_ids dest)).nextId := by
                    rw [htB, hnB]
                    dsimp only [clearSelection]
                    intro b hb
                    obtain ⟨a, ha, rfl⟩ := List.mem_map.mp hb
                    have hia := hwf a ha
                    split <;> exact hia
                  obtain ⟨hBsrc, hBsc, hBact, hBle, hBwf, hBchain, hBfr⟩ :=
                    buildCopies_spec dest (erasedSrcs src_ids dest) _ wB names heqB hwfH
                  have hBchain2 : builtChain dest wB.srcBones wB
                      (List.foldl (fun acc i => updateSrc acc i fun b =>
                      { b with hide := true }) (clearSelection w)
                      (erasedSrcs src_ids dest)).nextId
                      ((erasedSrcs src_ids dest).zip names) := by
                    rw [hBsrc]
                    exact hBchain
                  obtain ⟨hWsrc, hWsc, hWmap, hWchain, hWfr⟩ :=
                    wireCopies_spec dest w.active ((erasedSrcs src_ids dest).zip names)
                      wB wW pairs _ heqW hBchain2
                  have hmapfst : ((erasedSrcs src_ids dest).zip pairs).map Prod.fst =
                      erasedSrcs src_ids dest :=
                    List.map_fst_zip _ _ (by omega)
                  have hmapsnd : ((erasedSrcs src_ids dest).zip pairs).map Prod.snd =
                      pairs :=
                    List.map_snd_zip _ _ (by omega)
                  have hcopyeq : ((erasedSrcs src_ids dest).zip pairs).map
                      (fun t => t.2.1) = pairs.map Prod.fst := by
                    rw [show (fun (t : Nat × Nat × Nat) => t.2.1) =
                        (Prod.fst ∘ Prod.snd) from rfl, ← List.map_map, hmapsnd]
                  have hnodupC : (((erasedSrcs src_ids dest).zip pairs).map
                      (fun t => t.2.1)).Nodup := by
                    rw [hcopyeq, hWmap]
                    exact (builtChain_nodup dest wB.srcBones _ _ _ hBchain2).2
                  have hznfst : ((erasedSrcs src_ids dest).zip names).map Prod.fst =
                      erasedSrcs src_ids dest :=
                    List.map_fst_zip _ _ (by omega)
                  have hfacts := wiredChain_facts dest wB.srcBones wW
                    ((erasedSrcs src_ids dest).zip names) pairs hWchain
                  rw [hznfst] at hfacts
                  have hex : ∀ t ∈ (erasedSrcs src_ids dest).zip pairs,
                      ∃ s, findSrc
                        { srcBones := wW.srcBones, tempBones := wW.tempBones,
                          nextId := wW.nextId, scene := sc, active := wW.active } t.1 =
                        some s := by
                    intro t ht
                    obtain ⟨s, hs, _⟩ := hfacts t ht
                    refine ⟨s, ?_⟩
                    show wW.srcBones.find? (fun b => b.id == t.1) = some s
                    rw [hWsrc]
                    exact hs
                  obtain ⟨hRsc, hRsfr, hRtfr, hRall⟩ :=
                    rewireAll_spec ((erasedSrcs src_ids dest).zip pairs) _ wF hR
                      (by rw [hmapfst]; exact hnodup) hnodupC hex
                  intro p hp
                  obtain ⟨sStar, hsStar, ⟨n, hsF⟩, htF⟩ := hRall p hp
                  obtain ⟨s1, hfind1, hwired⟩ := hfacts p hp
                  obtain ⟨par, conn, hcopy⟩ :=
                    wiredAt_copy dest s1 p.1 p.2.1 p.2.2 wW hwired
                  constructor
                  · have hts : findTemp
                        { srcBones := wW.srcBones, tempBones := wW.tempBones,
                          nextId := wW.nextId, scene := sc, active := wW.active }
                        p.2.1 = findTemp wW p.2.1 := rfl
                    rw [hts, hcopy] at htF
                    refine ⟨_, htF, rfl, ?_⟩
                    simp [wiredCopy]
                  · obtain ⟨g, hg, hplook⟩ := prep_findSrc (erasedSrcs src_ids dest) w p.1
                    have hSW : findSrc
                        { srcBones := wW.srcBones, tempBones := wW.tempBones,
                          nextId := wW.nextId, scene := sc, active := wW.active }
                        p.1 = (findSrc w p.1).map g := by
                      show wW.srcBones.find? (fun b => b.id == p.1) = _
                      rw [hWsrc, hBsrc]
                      exact hplook
                    rw [hSW] at hsStar
                    cases how : findSrc w p.1 with
                    | none =>
                      rw [how] at hsStar
                      cases hsStar
                    | some s0 =>
                      rw [how] at hsStar
                      have hgs : g s0 = sStar := by
                        injection hsStar
                      refine ⟨s0, rfl, _, hsF, ?_, n, ?_⟩
                      · show sStar.use_connect = s0.use_connect
                        rw [← hgs]
                        exact (hg s0).2.1
                      · show sStar.constraints ++
                          rewireCons sStar.use_connect p.2.1 n =
                          s0.constraints ++ rewireCons s0.use_connect p.2.1 n
                        rw [← hgs, (hg s0).1, (hg s0).2.1]

/-- A one-source world for exercising the full `_space_switch` pipeline. -/
def w8 : World := ⟨[⟨10, none, false, .XYZ, [], false, false⟩], [], 0, ⟨1, []⟩, none⟩

/-- The world produced by `_space_switch` on `w8` (source 10, world space,
no frames). -/
def wF8 : World :=
  ⟨[⟨10, none, false, .XYZ,
      [⟨2, .COPY_LOCATION, some (.temp 0), none, 0⟩,
       ⟨3, .COPY_ROTATION, some (.temp 0), none, 0⟩], true, false⟩],
   [⟨0, none, false, .COPY, false, true, .XYZ, []⟩], 4, ⟨1, []⟩, none⟩

/-- Witness for C8: on a one-source switch to world space the copy ends with
no constraints and the unconnected source gains exactly the copy-location and
copy-rotation constraints targeting its copy. -/
theorem space_switch_rewiring_witness :
    (∃ t, findTemp wF8 0 = some t ∧ t.tag = Tag.COPY ∧ t.constraints = []) ∧
    ∃ s, findSrc w8 10 = some s ∧
      ∃ sF, findSrc wF8 10 = some sF ∧ sF.use_connect = s.use_connect ∧
        ∃ n, sF.constraints = s.constraints ++ rewireCons s.use_connect 0 n :=
  space_switch_rewiring okEnv w8 [10] none [] wF8 [(0, 1)]
    (by decide) (by decide) rfl (10, (0, 1)) (by decide)

/-- The construction pair behind each element of the recorded zip. -/
theorem wiredChain_mem (dest : Option Nat) (sb : List SrcBone) (w : World) :
    ∀ (pl ps : List (Nat × Nat)), wiredChain dest sb w pl ps →
      ∀ t ∈ (pl.map Prod.fst).zip ps, (t.1, t.2.1) ∈ pl
  | [], [], _, t, ht => absurd ht (by simp)
  | [], _ :: _, hc, _, _ => absurd hc (by simp [wiredChain])
  | _ :: _, [], hc, _, _ => absurd hc (by simp [wiredChain])
  | (i, c) :: pl, (c', cid) :: ps, hc, t, ht => by
    obtain ⟨hcc, s, hsf, hw, hrest⟩ := hc
    subst hcc
    rcases List.mem_cons.mp ht with he | he
    · subst he
      exact List.mem_cons_self _ _
    · exact List.mem_cons_of_mem _ (wiredChain_mem dest sb w pl ps hrest t he)

/-- No identifier strictly inside a segment is the copy identifier of any
segment of the chain. -/
theorem builtChain_not_inside (dest : Option Nat) (sb : List SrcBone) :
    ∀ (l : List (Nat × Nat)) (n : Nat) (w : World), builtChain dest sb w n l →
      ∀ e ∈ l, ∀ s, sb.find? (fun b => b.id == e.1) = some s →
        ∀ j, e.2 < j → j < e.2 + segWidth dest s → j ∉ l.map Prod.snd
  | [], _, _, _, _, he, _, _, _, _, _ => absurd he (List.not_mem_nil _)
  | (i, c) :: rest, n, w, hc, e, he, s, hsf, j, hj1, hj2 => by
    obtain ⟨hcn, s0, hsf0, _, hrest⟩ := hc
    subst hcn
    have hbounds := (builtChain_nodup dest sb rest _ w hrest).1
    intro hmem
    rcases List.mem_cons.mp he with he | he
    · subst he
      have hs : s = s0 := by
        rw [hsf0] at hsf
        exact (Option.some.injEq _ _ ▸ hsf).symm
      subst hs
      rcases List.mem_cons.mp hmem with hm | hm
      · dsimp only at hm
        omega
      · obtain ⟨e', he', hee⟩ := List.mem_map.mp hm
        have := hbounds e' he'
        dsimp only at hj1 hj2
        omega
    · have hbe := hbounds e he
      have hpos := segWidth_pos dest s0
      rcases List.mem_cons.mp hmem with hm | hm
      · omega
      · exact builtChain_not_inside dest sb rest _ w hrest e he s hsf j hj1 hj2 hm

/-- C7 (amended): for every connected source in a completed switch, the
anchor chain ends in a hidden two-bone chain whose outer anchor carries a
`COPY_LOCATION` with factor `1.0` targeting the source's parent's tail —
world space and destination alike — plus a `COPY_ROTATION` targeting the
destination exactly when one is given; the inner anchor carries no
constraints. -/
theorem space_switch_connected_anchor (env : BakeEnv) (w : World) (src_ids : List Nat)
    (dest : Option Nat) (frames : List Int) (wF : World) (pairs : List (Nat × Nat))
    (hwf : ∀ b ∈ w.tempBones, b.id < w.nextId)
    (hnodup : (erasedSrcs src_ids dest).Nodup)
    (h : space_switch_core env w src_ids dest frames = .ok (wF, pairs)) :
    ∀ p ∈ (erasedSrcs src_ids dest).zip pairs,
      ∀ s, findSrc w p.1 = some s → s.use_connect = true →
        ∃ sp, s.parent = some sp ∧ ∃ n1,
          findTemp wF (p.2.1 + 1) = some (wiredAnchor (p.2.1 + 1) none
            (connectedAnchorCons dest sp n1)) ∧
          findTemp wF (p.2.1 + 2) =
            some (wiredAnchor (p.2.1 + 2) (some (p.2.1 + 1)) []) := by
  unfold space_switch_core at h
  dsimp only at h
  split at h
  · cases h
    intro p hp
    simp at hp
  · rename_i hlen1
    split at h
    · exact absurd h (by simp)
    · rename_i wB names heqB
      split at h
      · exact absurd h (by simp)
      · rename_i hlen2
        split at h
        · exact absurd h (by simp)
        · rename_i wW pairs' heqW
          split at h
          · exact absurd h (by simp)
          · rename_i pbs heqT
            split at h
            · exact absurd h (by simp)
            · rename_i sc heqC
              split at h
              · exact absurd h (by simp)
              · rename_i hlen3
                cases hR : rewireAll
                    { srcBones := wW.srcBones, tempBones := wW.tempBones,
                      nextId := wW.nextId, scene := sc, active := wW.active }
                    ((erasedSrcs src_ids dest).zip pairs') with
                | error e =>
                  rw [hR] at h
                  exact absurd h (by simp [Except.map])
                | ok wR =>
                  rw [hR] at h
                  simp only [Except.map] at h
                  cases h
                  have hlenN : names.length = (erasedSrcs src_ids dest).length :=
                    buildCopies_length dest _ _ _ _ heqB
                  have hlenP : pairs.length =
                      ((erasedSrcs src_ids dest).zip names).length :=
                    wireCopies_length dest _ _ _ _ _ heqW
                  have hzipl : ((erasedSrcs src_ids dest).zip names).length =
                      (erasedSrcs src_ids dest).length := by
                    rw [List.length_zip, hlenN, Nat.min_self]
                  have hlenP2 : pairs.length = (erasedSrcs src_ids dest).length :=
                    hlenP.trans hzipl
                  obtain ⟨htB, hnB, hscB, hacB⟩ :=
                    hideFold_world (erasedSrcs src_ids dest) (clearSelection w)
                  have hwfH : ∀ b ∈ (List.foldl (fun acc i => updateSrc acc i fun b =>
                      { b with hide := true }) (clearSelection w)
                      (erasedSrcs src_ids dest)).tempBones,
                      b.id < (List.foldl (fun acc i => updateSrc acc i fun b =>
                      { b with hide := true }) (clearSelection w)
                      (erasedSrcs src_ids dest)).nextId := by
                    rw [htB, hnB]
                    dsimp only [clearSelection]
                    intro b hb
                    obtain ⟨a, ha, rfl⟩ := List.mem_map.mp hb
                    have hia := hwf a ha
                    split <;> exact hia
                  obtain ⟨hBsrc, hBsc, hBact, hBle, hBwf, hBchain, hBfr⟩ :=
                    buildCopies_spec dest (erasedSrcs src_ids dest) _ wB names heqB hwfH
                  have hBchain2 : builtChain dest wB.srcBones wB
                      (List.foldl (fun acc i => updateSrc acc i fun b =>
                      { b with hide := true }) (clearSelection w)
                      (erasedSrcs src_ids dest)).nextId
                      ((erasedSrcs src_ids dest).zip names) := by
                    rw [hBsrc]
                    exact hBchain
                  obtain ⟨hWsrc, hWsc, hWmap, hWchain, hWfr⟩ :=
                    wireCopies_spec dest w.active ((erasedSrcs src_ids dest).zip names)
                      wB wW pairs _ heqW hBchain2
                  have hmapfst : ((erasedSrcs src_ids dest).zip pairs).map Prod.fst =
                      erasedSrcs src_ids dest :=
                    List.map_fst_zip _ _ (by omega)
                  have hmapsnd : ((erasedSrcs src_ids dest).zip pairs).map Prod.snd =
                      pairs :=
                    List.map_snd_zip _ _ (by omega)
                  have hcopyeq : ((erasedSrcs src_ids dest).zip pairs).map
                      (fun t => t.2.1) = pairs.map Prod.fst := by
                    rw [show (fun (t : Nat × Nat × Nat) => t.2.1) =
                        (Prod.fst ∘ Prod.snd) from rfl, ← List.map_map, hmapsnd]
                  have hnodupC : (((erasedSrcs src_ids dest).zip pairs).map
                      (fun t => t.2.1)).Nodup := by
                    rw [hcopyeq, hWmap]
                    exact (builtChain_nodup dest wB.srcBones _ _ _ hBchain2).2
                  have hznfst : ((erasedSrcs src_ids dest).zip names).map Prod.fst =
                      erasedSrcs src_ids dest :=
                    List.map_fst_zip _ _ (by omega)
                  have hfacts := wiredChain_facts dest wB.srcBones wW
                    ((erasedSrcs src_ids dest).zip names) pairs hWchain
                  rw [hznfst] at hfacts
                  have hex : ∀ t ∈ (erasedSrcs src_ids dest).zip pairs,
                      ∃ s, findSrc
                        { srcBones := wW.srcBones, tempBones := wW.tempBones,
                          nextId := wW.nextId, scene := sc, active := wW.active } t.1 =
                        some s := by
                    intro t ht
                    obtain ⟨s, hs, _⟩ := hfacts t ht
                    refine ⟨s, ?_⟩
                    show wW.srcBones.find? (fun b => b.id == t.1) = some s
                    rw [hWsrc]
                    exact hs
                  obtain ⟨hRsc, hRsfr, hRtfr, hRall⟩ :=
                    rewireAll_spec ((erasedSrcs src_ids dest).zip pairs) _ wF hR
                      (by rw [hmapfst]; exact hnodup) hnodupC hex
                  intro p hp s hfind hconn
                  obtain ⟨s1, hfind1, hwired⟩ := hfacts p hp
                  have hfind1' := hfind1
                  obtain ⟨g, hg, hplook⟩ := prep_findSrc (erasedSrcs src_ids dest) w p.1
                  have hSW : wB.srcBones.find? (fun b => b.id == p.1) =
                      (findSrc w p.1).map g := by
                    rw [hBsrc]
                    exact hplook
                  rw [hSW, hfind] at hfind1
                  have hgs : g s = s1 := by
                    injection hfind1
                  have hconn1 : s1.use_connect = true := by
                    rw [← hgs, (hg s).2.1]
                    exact hconn
                  have hmem : (p.1, p.2.1) ∈ (erasedSrcs src_ids dest).zip names := by
                    have hmm := wiredChain_mem dest wB.srcBones wW
                      ((erasedSrcs src_ids dest).zip names) pairs hWchain p
                    rw [hznfst] at hmm
                    exact hmm hp
                  have hw3 : segWidth dest s1 = 3 := by
                    simp [segWidth, hconn1]
                  have hnot1 : (p.2.1 + 1) ∉
                      ((erasedSrcs src_ids dest).zip names).map Prod.snd :=
                    builtChain_not_inside dest wB.srcBones _ _ wB hBchain2
                      (p.1, p.2.1) hmem s1 hfind1' (p.2.1 + 1) (by omega) (by omega)
                  have hnot2 : (p.2.1 + 2) ∉
                      ((erasedSrcs src_ids dest).zip names).map Prod.snd :=
                    builtChain_not_inside dest wB.srcBones _ _ wB hBchain2
                      (p.1, p.2.1) hmem s1 hfind1' (p.2.1 + 2) (by omega) (by omega)
                  have hcopylist : ∀ j,
                      j ∉ ((erasedSrcs src_ids dest).zip names).map Prod.snd →
                      j ∉ ((erasedSrcs src_ids dest).zip pairs).map
                        (fun t => t.2.1) := by
                    intro j hj hmem2
                    rw [hcopyeq, hWmap] at hmem2
                    exact hj hmem2
                  have hfr1 : findTemp wF (p.2.1 + 1) = findTemp wW (p.2.1 + 1) :=
                    hRtfr (p.2.1 + 1) (hcopylist _ hnot1)
                  have hfr2 : findTemp wF (p.2.1 + 2) = findTemp wW (p.2.1 + 2) :=
                    hRtfr (p.2.1 + 2) (hcopylist _ hnot2)
                  unfold wiredAt at hwired
                  rw [if_pos hconn1] at hwired
                  obtain ⟨sp, hsp, hcop, hanc2, n1, hanc1⟩ := hwired
                  refine ⟨sp, ?_, n1, ?_, ?_⟩
                  · rw [← (hg s).2.2, hgs]
                    exact hsp
                  · rw [hfr1]
                    exact hanc1
                  · rw [hfr2]
                    exact hanc2

/-- A world with a connected source (10, parented to 11) and a
destination candidate (12). -/
def w7 : World :=
  ⟨[⟨10, some 11, true, .XYZ, [], false, false⟩,
    ⟨11, none, false, .XYZ, [], false, false⟩,
    ⟨12, none, false, .XYZ, [], false, false⟩], [], 0, ⟨1, []⟩, none⟩

/-- The world produced by `_space_switch` on `w7` with destination 12. -/
def wF7 : World :=
  ⟨[⟨10, some 11, true, .XYZ,
      [⟨6, .COPY_ROTATION, some (.temp 0), none, 0⟩], true, false⟩,
    ⟨11, none, false, .XYZ, [], false, false⟩,
    ⟨12, none, false, .XYZ, [], false, false⟩],
   [⟨0, some 2, true, .COPY, false, true, .QUATERNION, []⟩,
    ⟨1, none, false, .SPACE, true, false, .QUATERNION,
      [⟨4, .COPY_LOCATION, some (.src 11), none, 1⟩,
       ⟨5, .COPY_ROTATION, some (.src 12), none, 0⟩]⟩,
    ⟨2, some 1, false, .SPACE, true, false, .QUATERNION, []⟩],
   7, ⟨1, []⟩, none⟩

/-- Counterexample to C7 as stated: switching the connected source 10
(parented to 11) to the destination 12, the anchor's `COPY_LOCATION` has
factor `1.0` but targets the parent 11 — not the destination 12 — and a
`COPY_ROTATION` (targeting the destination) is added to the anchor. -/
theorem space_switch_connected_anchor_cex :
    space_switch okEnv w7 [10] (some 12) [] = .ok wF7 ∧
    (∃ a, findTemp wF7 1 = some a ∧
      (∃ cl ∈ a.constraints, cl.ctype = CType.COPY_LOCATION ∧ cl.head_tail = 1 ∧
        cl.target = some (BoneRef.src 11) ∧ cl.target ≠ some (BoneRef.src 12)) ∧
      ∃ cr ∈ a.constraints, cr.ctype = CType.COPY_ROTATION) ∧
    (findSrc w7 10).map SrcBone.parent = some (some 11) :=
  ⟨rfl,
   ⟨⟨1, none, false, .SPACE, true, false, .QUATERNION,
      [⟨4, .COPY_LOCATION, some (.src 11), none, 1⟩,
       ⟨5, .COPY_ROTATION, some (.src 12), none, 0⟩]⟩, rfl, by decide, by decide⟩,
   rfl⟩

/-- Witness for the amended C7 on the run of `space_switch_connected_anchor_cex`. -/
theorem space_switch_connected_anchor_witness :
    ∃ sp, (some 11 : Option Nat) = some sp ∧ ∃ n1,
      findTemp wF7 (0 + 1) = some (wiredAnchor (0 + 1) none
        (connectedAnchorCons (some 12) sp n1)) ∧
      findTemp wF7 (0 + 2) = some (wiredAnchor (0 + 2) (some (0 + 1)) []) :=
  space_switch_connected_anchor okEnv w7 [10] (some 12) [] wF7 [(0, 3)]
    (by decide) (by decide) rfl (10, (0, 3)) (by decide)
    ⟨10, some 11, true, .XYZ, [], false, false⟩ (by decide) (by decide)

/-- C9: with `apply = true`, when nothing is constrained to the selected
temporary bones the bake is skipped without error and the whole operation
coincides with the pure-discard (`apply = false`) path. -/
theorem remove_apply_skip (env : BakeEnv) (w : World) (frames : List Int)
    (hnone : gatherBake w (selectedTemps w) = []) :
    remove_bones_common env w true frames = remove_bones_common env w false frames := by
  unfold remove_bones_common
  dsimp only
  rw [hnone]
  rfl

/-- A world with one selected temporary bone and nothing constrained to it. -/
def wR9 : World :=
  ⟨[⟨20, none, false, .XYZ, [], false, false⟩],
   [⟨0, none, false, .COPY, false, true, .XYZ, []⟩], 1, ⟨1, []⟩, none⟩

/-- Witness for C9 on a one-bone discard. -/
theorem remove_apply_skip_witness :
    remove_bones_common okEnv wR9 true [1] = remove_bones_common okEnv wR9 false [1] :=
  remove_apply_skip okEnv wR9 [1] (by decide)
